import Mathlib

/-!
Shallow embedding of the WithGames event/participant lifecycle and
capacity-reconciliation engine.

The document store is modelled as a list of participant records in document
order: `create_document` appends, `update_document` rewrites the record with
the matching document id in place, `delete_document` removes it, and an
unordered query streams the records in document order, applying its `limit`
at the query level (as the Firestore client does) before any in-memory sort
performed by the services.  Timestamps are modelled as integers.
-/

namespace WithGames

/-- Event status enumeration (`EventStatus` in `src/models/event.py`). -/
inductive EventStatus where
  | active
  | full
  | closed
  | cancelled
  | completed
deriving DecidableEq, Repr

/-- Participant status enumeration (`ParticipantStatus` in `src/models/participant.py`). -/
inductive PStatus where
  | joined
  | waitlist
deriving DecidableEq, Repr

/-- Event record: the fields of `Event` the lifecycle engine reads and writes.
Presentation-only fields (title, description, ids of guild/channel/message,
creator data, emoji, timestamps of record bookkeeping) are omitted. -/
structure Event where
  startTime : Int
  maxParticipants : Nat
  currentParticipants : Int
  status : EventStatus
  reminderSent : Bool
deriving DecidableEq, Repr

/-- Participant record (`Participant` in `src/models/participant.py`).
`pid` is the Firestore document id, modelled as a natural number. -/
structure Participant where
  pid : Nat
  userId : Nat
  status : PStatus
  position : Nat
  joinedAt : Int
deriving DecidableEq, Repr

/-- The participants collection in document order. -/
abbrev Store := List Participant

/-- Status filter used by `get_participants`. -/
def isJoined (p : Participant) : Bool := p.status == PStatus.joined

/-- Status filter used by `get_waitlist`. -/
def isWaitlisted (p : Participant) : Bool := p.status == PStatus.waitlist

/-- Query-level `limit`: truncates the unordered document stream. -/
def queryLimit (limit : Option Nat) (l : List Participant) : List Participant :=
  match limit with
  | none => l
  | some n => l.take n

/-- Stable insertion used to model Python's stable `list.sort`/`sorted`:
`x` (the earlier element) is placed before every element it compares
less-or-equal to. -/
def insertSorted (le : α → α → Bool) (x : α) : List α → List α
  | [] => [x]
  | q :: l => if le x q then x :: q :: l else q :: insertSorted le x l

/-- Stable sort by a boolean comparison, modelling Python's stable sort. -/
def sortBy (le : α → α → Bool) : List α → List α
  | [] => []
  | x :: l => insertSorted le x (sortBy le l)

/-- Comparison for `participants.sort(key=lambda p: p.joined_at)`. -/
def byJoinedAt (p q : Participant) : Bool := decide (p.joinedAt ≤ q.joinedAt)

/-- Comparison for `sorted(participants, key=lambda p: p.joined_at, reverse=True)`. -/
def byJoinedAtDesc (p q : Participant) : Bool := decide (q.joinedAt ≤ p.joinedAt)

/-- Comparison for `waitlist.sort(key=lambda p: p.position)`. -/
def byPosition (p q : Participant) : Bool := decide (p.position ≤ q.position)

/-- `ParticipantService.get_participants`: query JOINED records (unordered,
query-level limit), then sort by `joined_at` in Python. -/
def get_participants (store : Store) (limit : Option Nat) : List Participant :=
  sortBy byJoinedAt (queryLimit limit (store.filter isJoined))

/-- `ParticipantService.get_waitlist`: query WAITLIST records (unordered,
query-level limit), then sort by `position` in Python. -/
def get_waitlist (store : Store) (limit : Option Nat) : List Participant :=
  sortBy byPosition (queryLimit limit (store.filter isWaitlisted))

/-- `ParticipantService.get_participant_by_user`: unordered query with
`limit=1` on the `user_id` filter. -/
def get_participant_by_user (store : Store) (uid : Nat) : Option Participant :=
  (store.filter (fun p => p.userId == uid)).head?

/-- `FirestoreService.update_document` on the participants collection. -/
def update_document (store : Store) (p : Participant) : Store :=
  store.map (fun q => if q.pid = p.pid then p else q)

/-- `FirestoreService.delete_document` on the participants collection. -/
def delete_document (store : Store) (pid : Nat) : Store :=
  store.filter (fun q => decide (q.pid ≠ pid))

/-- Lookup of a participant record by document id (first match in document
order; ids are unique in well-formed stores). -/
def lookupPid (store : Store) (x : Nat) : Option Participant :=
  store.find? (fun q => q.pid == x)

/-- `Event.is_full`: `current_participants >= max_participants`. -/
def is_full (e : Event) : Bool := decide ((e.maxParticipants : Int) ≤ e.currentParticipants)

/-- `Event.update_status` (the spec's `recompute_status`), with the clock
passed explicitly. -/
def update_status (now : Int) (e : Event) : Event :=
  let e1 :=
    if is_full e && (e.status == EventStatus.active) then
      { e with status := EventStatus.full }
    else if !is_full e && (e.status == EventStatus.full) then
      { e with status := EventStatus.active }
    else e
  if decide (e1.startTime < now) &&
      (e1.status == EventStatus.active || e1.status == EventStatus.full) then
    { e1 with status := EventStatus.completed }
  else e1

/-- `EventService.increment_participant_count`. -/
def increment_participant_count (now : Int) (e : Event) : Event :=
  update_status now { e with currentParticipants := e.currentParticipants + 1 }

/-- `EventService.decrement_participant_count` (clamps at zero). -/
def decrement_participant_count (now : Int) (e : Event) : Event :=
  update_status now { e with currentParticipants := max 0 (e.currentParticipants - 1) }

/-- Typed failures of the join path (the Japanese user-facing messages of
`can_user_join` and `join_event`, one constructor per distinct message). -/
inductive JoinError where
  | eventNotFound
  | recruitmentClosed
  | eventCancelled
  | eventCompleted
  | alreadyParticipating
deriving DecidableEq, Repr

/-- `EventService.can_user_join`: the status gate, in source check order.
Returns `none` when the join may proceed. -/
def can_user_join (e : Event) : Option JoinError :=
  if e.status = EventStatus.closed then some JoinError.recruitmentClosed
  else if e.status = EventStatus.cancelled then some JoinError.eventCancelled
  else if e.status = EventStatus.completed then some JoinError.eventCompleted
  else none

/-- Outcome of `ParticipantService.join_event`. -/
inductive JoinOutcome where
  | joinedDirect
  | waitlisted (position : Nat)
  | failure (err : JoinError)
deriving DecidableEq, Repr

/-- The mutable state a single event's operations touch: its participants
collection and its event document. -/
structure SysState where
  store : Store
  event : Event
deriving DecidableEq, Repr

/-- Result of `join_event`: the state after the call plus the outcome. -/
structure JoinResult where
  state : SysState
  outcome : JoinOutcome
deriving DecidableEq, Repr

/-- `ParticipantService.join_event`.  `pid` is the document id Firestore
assigns to a created record; `now` doubles as the clock and the `joined_at`
timestamp of a created record. -/
def join_event (now : Int) (pid uid : Nat) (st : SysState) : JoinResult :=
  match can_user_join st.event with
  | some err => ⟨st, JoinOutcome.failure err⟩
  | none =>
    if (get_participant_by_user st.store uid).isSome then
      ⟨st, JoinOutcome.failure JoinError.alreadyParticipating⟩
    else
      let participants := get_participants st.store none
      if participants.length < st.event.maxParticipants then
        let p : Participant := ⟨pid, uid, PStatus.joined, 0, now⟩
        ⟨⟨st.store ++ [p], increment_participant_count now st.event⟩,
          JoinOutcome.joinedDirect⟩
      else
        let wl := get_waitlist st.store none
        let p : Participant := ⟨pid, uid, PStatus.waitlist, wl.length + 1, now⟩
        ⟨⟨st.store ++ [p], st.event⟩, JoinOutcome.waitlisted (wl.length + 1)⟩

/-- One pass of the loop in `ParticipantService._update_waitlist_positions`:
walks `enumerate(waitlist, start=1)` pairs, rewriting the records whose
position differs from their 1-based rank; returns the new store and the
document ids written. -/
def applyPositions : Store → List (Nat × Participant) → Store × List Nat
  | store, [] => (store, [])
  | store, (i, p) :: rest =>
    if p.position = i then applyPositions store rest
    else
      let store1 := update_document store { p with position := i }
      let res := applyPositions store1 rest
      (res.1, p.pid :: res.2)

/-- `ParticipantService._update_waitlist_positions` (the spec's
`resequence_waitlist`). -/
def update_waitlist_positions (store : Store) : Store × List Nat :=
  applyPositions store (List.enumFrom 1 (get_waitlist store none))

/-- `ParticipantService._promote_from_waitlist`: promotes the head of
`get_waitlist(event_id, limit=1)`; returns the new store, the new event
document, and the promoted user's id (if any). -/
def promote_from_waitlist_front (now : Int) (store : Store) (e : Event) :
    Store × Event × Option Nat :=
  match get_waitlist store (some 1) with
  | [] => (store, e, none)
  | first :: _ =>
    let store1 := update_document store { first with status := PStatus.joined, position := 0 }
    let e1 := increment_participant_count now e
    let store2 := (update_waitlist_positions store1).1
    (store2, e1, some first.userId)

/-- Result of `leave_event`. -/
structure LeaveResult where
  state : SysState
  success : Bool
  promotedUserId : Option Nat
deriving DecidableEq, Repr

/-- `ParticipantService.leave_event`. -/
def leave_event (now : Int) (uid : Nat) (st : SysState) : LeaveResult :=
  match get_participant_by_user st.store uid with
  | none => ⟨st, false, none⟩
  | some p =>
    let store1 := delete_document st.store p.pid
    if p.status = PStatus.joined then
      let e1 := decrement_participant_count now st.event
      let r := promote_from_waitlist_front now store1 e1
      ⟨⟨r.1, r.2.1⟩, true, r.2.2⟩
    else
      let store2 := (update_waitlist_positions store1).1
      ⟨⟨store2, st.event⟩, true, none⟩

/-- `ParticipantService.promote_from_waitlist` (promotion of a specific
user, used by the capacity reconciler). -/
def promote_from_waitlist (now : Int) (uid : Nat) (store : Store) (e : Event) :
    Store × Event × Bool :=
  match get_participant_by_user store uid with
  | none => (store, e, false)
  | some p =>
    if p.status ≠ PStatus.waitlist then (store, e, false)
    else
      let store1 := update_document store { p with status := PStatus.joined, position := 0 }
      let e1 := increment_participant_count now e
      let store2 := (update_waitlist_positions store1).1
      (store2, e1, true)

/-- `ParticipantService.demote_to_waitlist`. -/
def demote_to_waitlist (now : Int) (uid : Nat) (store : Store) (e : Event) :
    Store × Event × Bool :=
  match get_participant_by_user store uid with
  | none => (store, e, false)
  | some p =>
    if p.status ≠ PStatus.joined then (store, e, false)
    else
      let newPosition := (get_waitlist store none).length + 1
      let store1 :=
        update_document store { p with status := PStatus.waitlist, position := newPosition }
      let e1 := decrement_participant_count now e
      (store1, e1, true)

/-- The promotion loop of `EventManager._handle_capacity_change`, case 1;
collects the users actually promoted. -/
def promoteLoop (now : Int) : List Nat → Store → Event → Store × Event × List Nat
  | [], store, e => (store, e, [])
  | uid :: rest, store, e =>
    let r := promote_from_waitlist now uid store e
    let res := promoteLoop now rest r.1 r.2.1
    (res.1, res.2.1, if r.2.2 then uid :: res.2.2 else res.2.2)

/-- The demotion loop of `EventManager._handle_capacity_change`, case 2;
collects the users actually demoted. -/
def demoteLoop (now : Int) : List Nat → Store → Event → Store × Event × List Nat
  | [], store, e => (store, e, [])
  | uid :: rest, store, e =>
    let r := demote_to_waitlist now uid store e
    let res := demoteLoop now rest r.1 r.2.1
    (res.1, res.2.1, if r.2.2 then uid :: res.2.2 else res.2.2)

/-- Result of `_handle_capacity_change`, with the promoted and demoted
user lists kept as observables. -/
structure CapacityResult where
  store : Store
  event : Event
  promoted : List Nat
  demoted : List Nat
deriving DecidableEq, Repr

/-- `EventManager._handle_capacity_change`: the event document already
carries the new `max_participants`; `oldMax` is the previous value.  Ends by
recomputing `current_participants` from the authoritative joined count. -/
def handle_capacity_change (now : Int) (oldMax : Nat) (st : SysState) : CapacityResult :=
  let newMax := st.event.maxParticipants
  let participants := get_participants st.store none
  let wl := get_waitlist st.store none
  let currentCount := participants.length
  let afterCases : Store × Event × List Nat × List Nat :=
    if oldMax < newMax then
      let available : Int := (newMax : Int) - (currentCount : Int)
      if 0 < available ∧ wl ≠ [] then
        let toPromote := min available.toNat wl.length
        let r := promoteLoop now ((wl.take toPromote).map (fun p => p.userId)) st.store st.event
        (r.1, r.2.1, r.2.2, [])
      else (st.store, st.event, [], [])
    else if newMax < oldMax then
      if newMax < currentCount then
        let excess := currentCount - newMax
        let sortedDesc := sortBy byJoinedAtDesc participants
        let r := demoteLoop now ((sortedDesc.take excess).map (fun p => p.userId)) st.store st.event
        (r.1, r.2.1, [], r.2.2)
      else (st.store, st.event, [], [])
    else (st.store, st.event, [], [])
  let finalStore := afterCases.1
  let e1 := afterCases.2.1
  { store := finalStore
    event := { e1 with currentParticipants := ((get_participants finalStore none).length : Int) }
    promoted := afterCases.2.2.1
    demoted := afterCases.2.2.2 }

/-- `DateTimeUtils.should_send_reminder`, with the clock passed explicitly:
reminder window is `[start_time - minutes_before, start_time)`. -/
def should_send_reminder (eventTime : Int) (reminderSent : Bool)
    (minutesBefore : Int) (now : Int) : Bool :=
  if reminderSent then false
  else decide (eventTime - minutesBefore ≤ now) && decide (now < eventTime)

/-- `NotificationManager._send_reminder`, reduced to its effect on the event
document: both the no-participants fallback and the normal send path set
`reminder_sent = true` (per-participant DM failures are swallowed inside the
loop in the source and do not reach this flag). -/
def send_reminder (store : Store) (e : Event) : Event :=
  let participants := get_participants store none
  if participants.isEmpty then { e with reminderSent := true }
  else { e with reminderSent := true }

/-- The per-event body of `NotificationManager.check_reminders`: returns the
event after the sweep and whether a send attempt was made. -/
def check_reminder_event (now window : Int) (store : Store) (e : Event) :
    Event × Bool :=
  if e.reminderSent then (e, false)
  else if !(e.status == EventStatus.active || e.status == EventStatus.full ||
      e.status == EventStatus.closed) then (e, false)
  else if should_send_reminder e.startTime e.reminderSent window now then
    (send_reminder store e, true)
  else (e, false)

/-- The per-event body of `NotificationManager.check_completed_events`. -/
def check_completed_event (now : Int) (e : Event) : Event :=
  if e.status = EventStatus.completed ∨ e.status = EventStatus.cancelled then e
  else if e.startTime < now then { e with status := EventStatus.completed } else e

/-- A counter mutation on the event document, for reasoning about sequences
of increments and decrements. -/
inductive CounterOp where
  | inc
  | dec
deriving DecidableEq, Repr

/-- Apply one counter mutation. -/
def applyCounterOp (now : Int) (e : Event) : CounterOp → Event
  | CounterOp.inc => increment_participant_count now e
  | CounterOp.dec => decrement_participant_count now e

/-- Apply a sequence of counter mutations, oldest first. -/
def applyCounterOps (now : Int) (ops : List CounterOp) (e : Event) : Event :=
  ops.foldl (applyCounterOp now) e

/-! ### Basic lemmas about the event document -/

theorem update_status_currentParticipants (now : Int) (e : Event) :
    (update_status now e).currentParticipants = e.currentParticipants := by
  unfold update_status
  dsimp only
  split_ifs <;> rfl

theorem increment_currentParticipants (now : Int) (e : Event) :
    (increment_participant_count now e).currentParticipants = e.currentParticipants + 1 := by
  unfold increment_participant_count
  rw [update_status_currentParticipants]

theorem decrement_currentParticipants (now : Int) (e : Event) :
    (decrement_participant_count now e).currentParticipants = max 0 (e.currentParticipants - 1) := by
  unfold decrement_participant_count
  rw [update_status_currentParticipants]

/-! ### Lemmas about the stable sort -/

theorem insertSorted_perm (le : α → α → Bool) (x : α) (l : List α) :
    (insertSorted le x l).Perm (x :: l) := by
  induction l with
  | nil => exact List.Perm.refl _
  | cons q l ih =>
    simp only [insertSorted]
    split
    · exact List.Perm.refl _
    · exact (List.Perm.cons q ih).trans (List.Perm.swap x q l)

theorem sortBy_perm (le : α → α → Bool) (l : List α) : (sortBy le l).Perm l := by
  induction l with
  | nil => exact List.Perm.refl _
  | cons x l ih => exact (insertSorted_perm le x (sortBy le l)).trans (List.Perm.cons x ih)

theorem insertSorted_pairwise (le : α → α → Bool)
    (htot : ∀ a b, le a b = true ∨ le b a = true)
    (htr : ∀ a b c, le a b = true → le b c = true → le a c = true)
    (x : α) (l : List α) (h : l.Pairwise (fun a b => le a b = true)) :
    (insertSorted le x l).Pairwise (fun a b => le a b = true) := by
  induction l with
  | nil => simp [insertSorted]
  | cons q l ih =>
    rcases List.pairwise_cons.mp h with ⟨hq, hl⟩
    simp only [insertSorted]
    by_cases hle : le x q = true
    · rw [if_pos hle]
      refine List.pairwise_cons.mpr ⟨?_, h⟩
      intro b hb
      rcases List.mem_cons.mp hb with rfl | hb
      · exact hle
      · exact htr x q b hle (hq b hb)
    · rw [if_neg hle]
      refine List.pairwise_cons.mpr ⟨?_, ih hl⟩
      intro b hb
      have hb' := (insertSorted_perm le x l).mem_iff.mp hb
      rcases List.mem_cons.mp hb' with rfl | hb'
      · rcases htot b q with h' | h'
        · exact absurd h' hle
        · exact h'
      · exact hq b hb'

theorem sortBy_pairwise (le : α → α → Bool)
    (htot : ∀ a b, le a b = true ∨ le b a = true)
    (htr : ∀ a b c, le a b = true → le b c = true → le a c = true)
    (l : List α) : (sortBy le l).Pairwise (fun a b => le a b = true) := by
  induction l with
  | nil => exact List.Pairwise.nil
  | cons x l ih => exact insertSorted_pairwise le htot htr x _ ih

/-! ### Lemmas about store lookups and updates -/

theorem lookupPid_map (s : Store) (F : Participant → Participant)
    (hF : ∀ q, (F q).pid = q.pid) (x : Nat) :
    lookupPid (s.map F) x = (lookupPid s x).map F := by
  induction s with
  | nil => rfl
  | cons q0 s ih =>
    by_cases hx : q0.pid = x
    · rw [List.map_cons, lookupPid, List.find?_cons_of_pos _ (by simp [hF q0, hx]),
        lookupPid, List.find?_cons_of_pos _ (by simp [hx])]
      rfl
    · rw [List.map_cons, lookupPid, List.find?_cons_of_neg _ (by simp [hF q0, hx]),
        lookupPid, List.find?_cons_of_neg _ (by simp [hx])]
      exact ih

theorem map_pid_map (s : Store) (F : Participant → Participant)
    (hF : ∀ q, (F q).pid = q.pid) :
    (s.map F).map (fun q => q.pid) = s.map (fun q => q.pid) := by
  rw [List.map_map]
  exact List.map_congr_left (fun a _ => hF a)

theorem lookupPid_of_mem (s : Store) (p : Participant) (hmem : p ∈ s)
    (hnd : (s.map (fun q => q.pid)).Nodup) : lookupPid s p.pid = some p := by
  induction s with
  | nil => cases hmem
  | cons q0 s ih =>
    rw [List.map_cons, List.nodup_cons] at hnd
    rcases List.mem_cons.mp hmem with rfl | hmem'
    · exact List.find?_cons_of_pos _ (by simp)
    · have hne : ¬ q0.pid = p.pid := by
        intro he
        exact hnd.1 (he ▸ List.mem_map_of_mem (fun q => q.pid) hmem')
      rw [lookupPid, List.find?_cons_of_neg _ (by simp [hne])]
      exact ih hmem' hnd.2

theorem eq_of_mem_of_lookupPid (s : Store) (p q : Participant) (x : Nat)
    (hl : lookupPid s x = some p) (hq : q ∈ s) (hpid : q.pid = x)
    (hnd : (s.map (fun r => r.pid)).Nodup) : q = p := by
  have h2 := lookupPid_of_mem s q hq hnd
  rw [hpid, hl] at h2
  exact (Option.some_inj.mp h2).symm

/-! ### Lemmas about enumerated waitlists -/

theorem mem_enumFrom_snd (l : List Participant) :
    ∀ (n : Nat), ∀ ip ∈ List.enumFrom n l, ip.2 ∈ l := by
  induction l with
  | nil => intro n ip h; cases h
  | cons q l ih =>
    intro n ip h
    rcases List.mem_cons.mp h with rfl | h'
    · exact List.mem_cons_self _ _
    · exact List.mem_cons_of_mem _ (ih (n + 1) ip h')

theorem find?_enumFrom_self (l : List Participant)
    (hnd : (l.map (fun q => q.pid)).Nodup) :
    ∀ (n : Nat), ∀ ip ∈ List.enumFrom n l,
      (List.enumFrom n l).find? (fun jp => jp.2.pid == ip.2.pid) = some ip := by
  induction l with
  | nil => intro n ip h; cases h
  | cons q l ih =>
    rw [List.map_cons, List.nodup_cons] at hnd
    intro n ip h
    rcases List.mem_cons.mp h with rfl | h'
    · exact List.find?_cons_of_pos _ (by simp)
    · have hmem2 : ip.2 ∈ l := mem_enumFrom_snd l (n + 1) ip h'
      have hne : ¬ q.pid = ip.2.pid := by
        intro he
        exact hnd.1 (he ▸ List.mem_map_of_mem (fun r => r.pid) hmem2)
      rw [show List.enumFrom n (q :: l) = (n, q) :: List.enumFrom (n + 1) l from rfl,
        List.find?_cons_of_neg _ (by simp [hne])]
      exact ih hnd.2 (n + 1) ip h'

theorem map_position_range' (G : Participant → Participant) (l : List Participant) :
    ∀ (n : Nat), (∀ ip ∈ List.enumFrom n l, (G ip.2).position = ip.1) →
      l.map (fun q => (G q).position) = List.range' n l.length := by
  induction l with
  | nil => intro n _; rfl
  | cons q l ih =>
    intro n h
    rw [List.map_cons, List.length_cons, List.range'_succ]
    congr 1
    · exact h (n, q) (List.mem_cons_self _ _)
    · exact ih (n + 1) (fun ip hip => h ip (List.mem_cons_of_mem _ hip))

/-! ### Characterization of the resequencing pass -/

theorem applyPositions_written (pairs : List (Nat × Participant)) :
    ∀ (s : Store), (applyPositions s pairs).2 =
      (pairs.filter (fun ip => decide (ip.2.position ≠ ip.1))).map (fun ip => ip.2.pid) := by
  induction pairs with
  | nil => intro s; rfl
  | cons hd rest ih =>
    intro s
    obtain ⟨i, p⟩ := hd
    by_cases hpi : p.position = i
    · simp [applyPositions, hpi, ih]
    · simp [applyPositions, hpi, ih]

theorem applyPositions_store (pairs : List (Nat × Participant)) :
    ∀ (s : Store),
      (s.map (fun q => q.pid)).Nodup →
      (pairs.map (fun ip => ip.2.pid)).Nodup →
      (∀ ip ∈ pairs, lookupPid s ip.2.pid = some ip.2) →
      (applyPositions s pairs).1 =
        s.map (fun q =>
          match pairs.find? (fun ip => ip.2.pid == q.pid) with
          | some ip => { ip.2 with position := ip.1 }
          | none => q) := by
  induction pairs with
  | nil => intro s _ _ _; simp [applyPositions]
  | cons hd rest ih =>
    intro s hnds hndp hmem
    obtain ⟨i, p⟩ := hd
    rw [List.map_cons, List.nodup_cons] at hndp
    have hp : lookupPid s p.pid = some p := hmem (i, p) (List.mem_cons_self _ _)
    have hmemrest : ∀ ip ∈ rest, lookupPid s ip.2.pid = some ip.2 :=
      fun ip hip => hmem ip (List.mem_cons_of_mem _ hip)
    have hrestnone : ∀ (x : Nat), x = p.pid →
        rest.find? (fun jp => jp.2.pid == x) = none := by
      intro x hx
      rw [List.find?_eq_none]
      intro jp hjp hcontra
      rw [beq_iff_eq] at hcontra
      exact hndp.1 (by rw [← hx, ← hcontra]; exact List.mem_map_of_mem _ hjp)
    by_cases hpi : p.position = i
    · rw [show applyPositions s ((i, p) :: rest) = applyPositions s rest by
        simp [applyPositions, hpi]]
      rw [ih s hnds hndp.2 hmemrest]
      apply List.map_congr_left
      intro q hq
      by_cases hqp : p.pid = q.pid
      · have hqe : q = p := eq_of_mem_of_lookupPid s p q p.pid hp hq hqp.symm hnds
        rw [hrestnone q.pid hqp.symm, List.find?_cons_of_pos _ (by simp [hqp])]
        rw [hqe, ← hpi]
      · rw [List.find?_cons_of_neg _ (by simp [hqp])]
    · rw [show applyPositions s ((i, p) :: rest) =
          ((applyPositions (update_document s { p with position := i }) rest).1,
            p.pid :: (applyPositions (update_document s { p with position := i }) rest).2) by
        simp [applyPositions, hpi]]
      have hupd : update_document s { p with position := i } =
          s.map (fun q => if q.pid = p.pid then { p with position := i } else q) := rfl
      have hFpid : ∀ q : Participant,
          ((fun q => if q.pid = p.pid then { p with position := i } else q) q).pid = q.pid := by
        intro q
        by_cases h : q.pid = p.pid <;> simp [h]
      have hnds1 : ((update_document s { p with position := i }).map (fun q => q.pid)).Nodup := by
        rw [hupd, map_pid_map _ _ hFpid]
        exact hnds
      have hmem1 : ∀ ip ∈ rest,
          lookupPid (update_document s { p with position := i }) ip.2.pid = some ip.2 := by
        intro ip hip
        rw [hupd, lookupPid_map _ _ hFpid, hmemrest ip hip]
        have hne : ¬ ip.2.pid = p.pid := by
          intro he
          exact hndp.1 (he ▸ List.mem_map_of_mem _ hip)
        simp [hne]
      rw [ih _ hnds1 hndp.2 hmem1, hupd, List.map_map]
      apply List.map_congr_left
      intro q hq
      simp only [Function.comp_apply]
      by_cases hqp : p.pid = q.pid
      · rw [if_pos hqp.symm]
        have hfind : rest.find?
            (fun jp => jp.2.pid == ({ p with position := i } : Participant).pid) = none :=
          hrestnone _ rfl
        rw [hfind, List.find?_cons_of_pos _ (by simp [hqp])]
      · have hne2 : ¬ q.pid = p.pid := fun h => hqp h.symm
        rw [if_neg hne2, List.find?_cons_of_neg _ (by simp [hqp])]

/-! ### Facts about `get_waitlist` and friends -/

theorem mem_of_mem_get_waitlist (s : Store) (p : Participant)
    (h : p ∈ get_waitlist s none) : p ∈ s :=
  List.mem_of_mem_filter ((sortBy_perm byPosition _).mem_iff.mp h)

theorem status_of_mem_get_waitlist (s : Store) (p : Participant)
    (h : p ∈ get_waitlist s none) : p.status = PStatus.waitlist := by
  have h2 := (sortBy_perm byPosition _).mem_iff.mp h
  have h3 := List.of_mem_filter h2
  simpa [isWaitlisted] using h3

theorem get_waitlist_pid_nodup (s : Store)
    (hnd : (s.map (fun q => q.pid)).Nodup) :
    ((get_waitlist s none).map (fun q => q.pid)).Nodup := by
  have hsub : ((s.filter isWaitlisted).map (fun q => q.pid)).Nodup :=
    hnd.sublist ((List.filter_sublist s).map _)
  exact (((sortBy_perm byPosition (s.filter isWaitlisted)).map (fun q => q.pid)).nodup_iff).mpr
    hsub

theorem update_waitlist_positions_store (s : Store)
    (hnd : (s.map (fun q => q.pid)).Nodup) :
    (update_waitlist_positions s).1 =
      s.map (fun q =>
        match (List.enumFrom 1 (get_waitlist s none)).find? (fun ip => ip.2.pid == q.pid) with
        | some ip => { ip.2 with position := ip.1 }
        | none => q) := by
  have hpairs : ((List.enumFrom 1 (get_waitlist s none)).map (fun ip => ip.2.pid)).Nodup := by
    have h2 : (List.enumFrom 1 (get_waitlist s none)).map Prod.snd = get_waitlist s none :=
      List.enumFrom_map_snd 1 _
    have h1 : (List.enumFrom 1 (get_waitlist s none)).map (fun ip => ip.2.pid) =
        (get_waitlist s none).map (fun q => q.pid) := by
      conv_rhs => rw [← h2]
      rw [List.map_map]
      rfl
    rw [h1]
    exact get_waitlist_pid_nodup s hnd
  have hmem : ∀ ip ∈ List.enumFrom 1 (get_waitlist s none),
      lookupPid s ip.2.pid = some ip.2 := fun ip hip =>
    lookupPid_of_mem s ip.2
      (mem_of_mem_get_waitlist s ip.2 (mem_enumFrom_snd _ 1 ip hip)) hnd
  exact applyPositions_store _ s hnd hpairs hmem

theorem find?_pairs_pid (pairs : List (Nat × Participant)) (q : Participant) :
    (match pairs.find? (fun ip : Nat × Participant => ip.2.pid == q.pid) with
      | some ip => ({ ip.2 with position := ip.1 } : Participant)
      | none => q).pid = q.pid := by
  cases hfind : pairs.find? (fun ip : Nat × Participant => ip.2.pid == q.pid) with
  | none => rfl
  | some ip =>
    have h := List.find?_some hfind
    rw [beq_iff_eq] at h
    exact h

theorem find?_pairs_status (s : Store) (hnd : (s.map (fun r => r.pid)).Nodup)
    (pairs : List (Nat × Participant))
    (hmem : ∀ ip ∈ pairs, lookupPid s ip.2.pid = some ip.2)
    (q : Participant) (hq : q ∈ s) :
    (match pairs.find? (fun ip : Nat × Participant => ip.2.pid == q.pid) with
      | some ip => ({ ip.2 with position := ip.1 } : Participant)
      | none => q).status = q.status ∧
    (match pairs.find? (fun ip : Nat × Participant => ip.2.pid == q.pid) with
      | some ip => ({ ip.2 with position := ip.1 } : Participant)
      | none => q).userId = q.userId ∧
    (match pairs.find? (fun ip : Nat × Participant => ip.2.pid == q.pid) with
      | some ip => ({ ip.2 with position := ip.1 } : Participant)
      | none => q).joinedAt = q.joinedAt := by
  cases hfind : pairs.find? (fun ip : Nat × Participant => ip.2.pid == q.pid) with
  | none => exact ⟨rfl, rfl, rfl⟩
  | some ip =>
    have hpid := List.find?_some hfind
    rw [beq_iff_eq] at hpid
    have hip := List.mem_of_find?_eq_some hfind
    have hqe : q = ip.2 :=
      eq_of_mem_of_lookupPid s ip.2 q ip.2.pid (hmem ip hip) hq hpid.symm hnd
    exact ⟨by rw [hqe], by rw [hqe], by rw [hqe]⟩

theorem resequence_lookup (s : Store) (hnd : (s.map (fun q => q.pid)).Nodup) :
    ∀ ip ∈ List.enumFrom 1 (get_waitlist s none),
      lookupPid (update_waitlist_positions s).1 ip.2.pid =
        some { ip.2 with position := ip.1 } := by
  intro ip hip
  rw [update_waitlist_positions_store s hnd,
    lookupPid_map _ _ (fun q => find?_pairs_pid _ q),
    lookupPid_of_mem s ip.2
      (mem_of_mem_get_waitlist s ip.2 (mem_enumFrom_snd _ 1 ip hip)) hnd,
    Option.map_some']
  congr 1
  rw [find?_enumFrom_self (get_waitlist s none) (get_waitlist_pid_nodup s hnd) 1 ip hip]

theorem resequence_positions_perm (s : Store)
    (hnd : (s.map (fun q => q.pid)).Nodup) :
    (((update_waitlist_positions s).1.filter isWaitlisted).map (fun p => p.position)).Perm
      (List.range' 1 (get_waitlist s none).length) := by
  have hmem : ∀ ip ∈ List.enumFrom 1 (get_waitlist s none),
      lookupPid s ip.2.pid = some ip.2 := fun ip hip =>
    lookupPid_of_mem s ip.2
      (mem_of_mem_get_waitlist s ip.2 (mem_enumFrom_snd _ 1 ip hip)) hnd
  rw [update_waitlist_positions_store s hnd, List.filter_map]
  have hcongr : s.filter (isWaitlisted ∘ fun q =>
      match (List.enumFrom 1 (get_waitlist s none)).find?
          (fun ip : Nat × Participant => ip.2.pid == q.pid) with
      | some ip => { ip.2 with position := ip.1 }
      | none => q) = s.filter isWaitlisted := by
    apply List.filter_congr
    intro q hq
    have hf := (find?_pairs_status s hnd _ hmem q hq).1
    simp only [Function.comp_apply, isWaitlisted, hf]
  rw [hcongr, List.map_map]
  have heq : (get_waitlist s none).map (fun q =>
      (match (List.enumFrom 1 (get_waitlist s none)).find?
          (fun ip : Nat × Participant => ip.2.pid == q.pid) with
        | some ip => ({ ip.2 with position := ip.1 } : Participant)
        | none => q).position) = List.range' 1 (get_waitlist s none).length := by
    apply map_position_range'
    intro ip hip
    rw [find?_enumFrom_self (get_waitlist s none) (get_waitlist_pid_nodup s hnd) 1 ip hip]
  show ((s.filter isWaitlisted).map (fun q =>
      (match (List.enumFrom 1 (get_waitlist s none)).find?
          (fun ip : Nat × Participant => ip.2.pid == q.pid) with
        | some ip => ({ ip.2 with position := ip.1 } : Participant)
        | none => q).position)).Perm (List.range' 1 (get_waitlist s none).length)
  rw [← heq]
  exact (sortBy_perm byPosition (s.filter isWaitlisted)).symm.map _

/-! ### Lemmas about user lookups -/

theorem get_participant_by_user_map (s : Store) (F : Participant → Participant)
    (huid : ∀ q ∈ s, (F q).userId = q.userId) (uid : Nat) :
    get_participant_by_user (s.map F) uid = (get_participant_by_user s uid).map F := by
  unfold get_participant_by_user
  rw [List.filter_map]
  have hc : s.filter ((fun p => p.userId == uid) ∘ F) = s.filter (fun p => p.userId == uid) :=
    List.filter_congr (fun q hq => by simp only [Function.comp_apply, huid q hq])
  rw [hc, List.head?_map]

theorem get_participant_by_user_of_mem (s : Store) (p : Participant) (hmem : p ∈ s)
    (hnd : (s.map (fun q => q.userId)).Nodup) :
    get_participant_by_user s p.userId = some p := by
  induction s with
  | nil => cases hmem
  | cons q0 s ih =>
    rw [List.map_cons, List.nodup_cons] at hnd
    rcases List.mem_cons.mp hmem with rfl | hmem2
    · unfold get_participant_by_user
      rw [List.filter_cons_of_pos (by simp)]
      rfl
    · have hne : ¬ q0.userId = p.userId := fun he =>
        hnd.1 (he ▸ List.mem_map_of_mem (fun q => q.userId) hmem2)
      unfold get_participant_by_user
      rw [List.filter_cons_of_neg (by simp [hne])]
      exact ih hmem2 hnd.2

theorem mem_of_get_participant_by_user (s : Store) (uid : Nat) (p : Participant)
    (h : get_participant_by_user s uid = some p) : p ∈ s ∧ p.userId = uid := by
  unfold get_participant_by_user at h
  have hmem : p ∈ s.filter (fun q => q.userId == uid) :=
    List.mem_of_mem_head? (by simp [h])
  refine ⟨List.mem_of_mem_filter hmem, ?_⟩
  have := List.of_mem_filter hmem
  rwa [beq_iff_eq] at this

theorem eq_of_mem_of_get_participant_by_user (s : Store) (p q : Participant) (uid : Nat)
    (hl : get_participant_by_user s uid = some p) (hq : q ∈ s) (huid : q.userId = uid)
    (hnd : (s.map (fun r => r.userId)).Nodup) : q = p := by
  have h2 := get_participant_by_user_of_mem s q hq hnd
  rw [huid, hl] at h2
  exact (Option.some_inj.mp h2).symm

theorem pid_ne_of_userId_ne (s : Store) (hndp : (s.map (fun q => q.pid)).Nodup)
    (a b : Participant) (ha : a ∈ s) (hb : b ∈ s) (hne : a.userId ≠ b.userId) :
    a.pid ≠ b.pid := by
  intro he
  have hab : a = b :=
    eq_of_mem_of_lookupPid s b a b.pid (lookupPid_of_mem s b hb hndp) ha he hndp
  exact hne (by rw [hab])

/-! ### Lemmas about status membership -/

theorem mem_of_mem_get_participants (s : Store) (p : Participant)
    (h : p ∈ get_participants s none) : p ∈ s :=
  List.mem_of_mem_filter ((sortBy_perm byJoinedAt _).mem_iff.mp h)

theorem status_of_mem_get_participants (s : Store) (p : Participant)
    (h : p ∈ get_participants s none) : p.status = PStatus.joined := by
  have h2 := (sortBy_perm byJoinedAt _).mem_iff.mp h
  have h3 := List.of_mem_filter h2
  simpa [isJoined] using h3

theorem get_waitlist_length (s : Store) :
    (get_waitlist s none).length = (s.filter isWaitlisted).length :=
  (sortBy_perm byPosition _).length_eq

theorem filter_length_update_to_waitlist (s : Store) (p pW : Participant) :
    (s.map (fun q => q.pid)).Nodup → p ∈ s → pW.pid = p.pid →
    isWaitlisted p = false → isWaitlisted pW = true →
    ((update_document s pW).filter isWaitlisted).length =
      (s.filter isWaitlisted).length + 1 := by
  induction s with
  | nil => intro _ hmem; cases hmem
  | cons q0 s ih =>
    intro hnd hmem hpid hold hnew
    rw [List.map_cons, List.nodup_cons] at hnd
    rcases List.mem_cons.mp hmem with rfl | hmem2
    · have htail : update_document s pW = s := by
        have h1 : update_document s pW = s.map (fun q => q) :=
          List.map_congr_left (fun q hq => by
            have hne : ¬ q.pid = pW.pid := by
              rw [hpid]
              intro he
              exact hnd.1 (he ▸ List.mem_map_of_mem (fun r => r.pid) hq)
            exact if_neg hne)
        rw [h1, List.map_id_fun']
        rfl
      show (List.filter isWaitlisted
        ((if p.pid = pW.pid then pW else p) :: update_document s pW)).length =
        (List.filter isWaitlisted (p :: s)).length + 1
      rw [if_pos hpid.symm, htail, List.filter_cons_of_pos hnew,
        List.filter_cons_of_neg (by simp [hold])]
      rfl
    · have hne : ¬ q0.pid = pW.pid := by
        rw [hpid]
        intro he
        exact hnd.1 (he ▸ List.mem_map_of_mem (fun r => r.pid) hmem2)
      show (List.filter isWaitlisted
        ((if q0.pid = pW.pid then pW else q0) :: update_document s pW)).length =
        (List.filter isWaitlisted (q0 :: s)).length + 1
      rw [if_neg hne]
      by_cases hq0 : isWaitlisted q0 = true
      · rw [List.filter_cons_of_pos hq0, List.filter_cons_of_pos hq0]
        simp only [List.length_cons]
        rw [ih hnd.2 hmem2 hpid hold hnew]
      · rw [List.filter_cons_of_neg hq0, List.filter_cons_of_neg hq0]
        exact ih hnd.2 hmem2 hpid hold hnew

/-! ### Update lemmas shared by promotion and demotion steps -/

theorem get_participant_by_user_update (s : Store) (pold pnew : Participant)
    (hndp : (s.map (fun q => q.pid)).Nodup)
    (hple : lookupPid s pold.pid = some pold)
    (hpid : pnew.pid = pold.pid) (huid : pnew.userId = pold.userId) (uid : Nat) :
    get_participant_by_user (update_document s pnew) uid =
      (get_participant_by_user s uid).map
        (fun q => if q.pid = pold.pid then pnew else q) := by
  unfold update_document
  have hF : ∀ q ∈ s, ((fun q => if q.pid = pnew.pid then pnew else q) q).userId = q.userId := by
    intro q hq
    by_cases h : q.pid = pnew.pid
    · have hq2 : q = pold :=
        eq_of_mem_of_lookupPid s pold q pold.pid hple hq (by rw [← hpid]; exact h) hndp
      subst hq2
      simp only [if_pos h, huid]
    · simp only [if_neg h]
  rw [get_participant_by_user_map s _ hF, hpid]

theorem map_userId_update_document (s : Store) (pold pnew : Participant)
    (hndp : (s.map (fun q => q.pid)).Nodup)
    (hple : lookupPid s pold.pid = some pold)
    (hpid : pnew.pid = pold.pid) (huid : pnew.userId = pold.userId) :
    (update_document s pnew).map (fun q => q.userId) = s.map (fun q => q.userId) := by
  unfold update_document
  rw [List.map_map]
  apply List.map_congr_left
  intro q hq
  by_cases h : q.pid = pnew.pid
  · have hq2 : q = pold :=
      eq_of_mem_of_lookupPid s pold q pold.pid hple hq (by rw [← hpid]; exact h) hndp
    subst hq2
    simp only [Function.comp_apply, if_pos h, huid]
  · simp only [Function.comp_apply, if_neg h]

theorem map_pid_update_document (s : Store) (pnew : Participant) :
    (update_document s pnew).map (fun q => q.pid) = s.map (fun q => q.pid) :=
  map_pid_map s _ (fun q => by by_cases h : q.pid = pnew.pid <;> simp [h])

/-! ### The demotion step and loop -/

theorem demote_to_waitlist_step (now : Int) (s : Store) (e : Event)
    (hndp : (s.map (fun q => q.pid)).Nodup)
    (hndu : (s.map (fun q => q.userId)).Nodup)
    (p : Participant) (hp : get_participant_by_user s p.userId = some p)
    (hj : p.status = PStatus.joined) :
    (demote_to_waitlist now p.userId s e).2.2 = true ∧
    (demote_to_waitlist now p.userId s e).1.map (fun q => q.pid) =
      s.map (fun q => q.pid) ∧
    (demote_to_waitlist now p.userId s e).1.map (fun q => q.userId) =
      s.map (fun q => q.userId) ∧
    get_participant_by_user (demote_to_waitlist now p.userId s e).1 p.userId =
      some { p with status := PStatus.waitlist, position := (get_waitlist s none).length + 1 } ∧
    (∀ uid2, uid2 ≠ p.userId →
      get_participant_by_user (demote_to_waitlist now p.userId s e).1 uid2 =
        get_participant_by_user s uid2) ∧
    (get_waitlist (demote_to_waitlist now p.userId s e).1 none).length =
      (get_waitlist s none).length + 1 := by
  have hmem : p ∈ s := (mem_of_get_participant_by_user s p.userId p hp).1
  have hple : lookupPid s p.pid = some p := lookupPid_of_mem s p hmem hndp
  have hr : demote_to_waitlist now p.userId s e =
      (update_document s
          { p with status := PStatus.waitlist, position := (get_waitlist s none).length + 1 },
        decrement_participant_count now e, true) := by
    unfold demote_to_waitlist
    rw [hp]
    split
    · rename_i heq
      cases heq
    · rename_i p2 heq
      obtain rfl := Option.some_inj.mp heq
      rw [if_neg (by simp [hj])]
  rw [hr]
  have hupd := get_participant_by_user_update s p
    { p with status := PStatus.waitlist, position := (get_waitlist s none).length + 1 }
    hndp hple rfl rfl
  refine ⟨rfl, map_pid_update_document s _, ?_, ?_, ?_, ?_⟩
  · exact map_userId_update_document s p _ hndp hple rfl rfl
  · rw [hupd p.userId, hp, Option.map_some', if_pos rfl]
  · intro uid2 hne2
    rw [hupd uid2]
    cases hu : get_participant_by_user s uid2 with
    | none => rfl
    | some q2 =>
      rw [Option.map_some']
      obtain ⟨hq2mem, hq2uid⟩ := mem_of_get_participant_by_user s uid2 q2 hu
      have hq2ne : ¬ q2.pid = p.pid := by
        intro he
        have hq2e : q2 = p := eq_of_mem_of_lookupPid s p q2 p.pid hple hq2mem he hndp
        rw [hq2e] at hq2uid
        exact hne2 hq2uid.symm
      rw [if_neg hq2ne]
  · rw [get_waitlist_length, get_waitlist_length]
    exact filter_length_update_to_waitlist s p _ hndp hmem rfl
      (by simp [isWaitlisted, hj]) (by simp [isWaitlisted])

theorem demoteLoop_spec (now : Int) :
    ∀ (vs : List Participant) (s : Store) (e : Event),
      (s.map (fun q => q.pid)).Nodup →
      (s.map (fun q => q.userId)).Nodup →
      (vs.map (fun p => p.userId)).Nodup →
      (∀ q ∈ vs, get_participant_by_user s q.userId = some q ∧
        q.status = PStatus.joined) →
      (demoteLoop now (vs.map (fun p => p.userId)) s e).2.2 =
        vs.map (fun p => p.userId) ∧
      (∀ j, (hj : j < vs.length) →
        get_participant_by_user (demoteLoop now (vs.map (fun p => p.userId)) s e).1
            ((vs.get ⟨j, hj⟩).userId) =
          some { vs.get ⟨j, hj⟩ with
                 status := PStatus.waitlist, position := (get_waitlist s none).length + j + 1 }) ∧
      (∀ uid2, uid2 ∉ vs.map (fun p => p.userId) →
        get_participant_by_user (demoteLoop now (vs.map (fun p => p.userId)) s e).1 uid2 =
          get_participant_by_user s uid2) := by
  intro vs
  induction vs with
  | nil =>
    intro s e _ _ _ _
    refine ⟨rfl, ?_, fun uid2 _ => rfl⟩
    intro j hj
    exact absurd hj (by simp)
  | cons v rest ih =>
    intro s e hndp hndu hndv hW
    obtain ⟨hv, hvj⟩ := hW v (List.mem_cons_self _ _)
    have hstep := demote_to_waitlist_step now s e hndp hndu v hv hvj
    obtain ⟨hsucc, hpidmap, huidmap, hlookup, hothers, hwllen⟩ := hstep
    rw [List.map_cons, List.nodup_cons] at hndv
    have hndp1 : ((demote_to_waitlist now v.userId s e).1.map (fun q => q.pid)).Nodup := by
      rw [hpidmap]; exact hndp
    have hndu1 : ((demote_to_waitlist now v.userId s e).1.map (fun q => q.userId)).Nodup := by
      rw [huidmap]; exact hndu
    have hW1 : ∀ q ∈ rest,
        get_participant_by_user (demote_to_waitlist now v.userId s e).1 q.userId = some q ∧
          q.status = PStatus.joined := by
      intro q hq
      have hqne : q.userId ≠ v.userId := by
        intro he
        exact hndv.1 (he ▸ List.mem_map_of_mem (fun p => p.userId) hq)
      obtain ⟨hq1, hq2⟩ := hW q (List.mem_cons_of_mem _ hq)
      exact ⟨by rw [hothers q.userId hqne]; exact hq1, hq2⟩
    have hrest := ih (demote_to_waitlist now v.userId s e).1
      (demote_to_waitlist now v.userId s e).2.1 hndp1 hndu1 hndv.2 hW1
    have hloop : demoteLoop now ((v :: rest).map (fun p => p.userId)) s e =
        ((demoteLoop now (rest.map (fun p => p.userId))
            (demote_to_waitlist now v.userId s e).1
            (demote_to_waitlist now v.userId s e).2.1).1,
          (demoteLoop now (rest.map (fun p => p.userId))
            (demote_to_waitlist now v.userId s e).1
            (demote_to_waitlist now v.userId s e).2.1).2.1,
          v.userId :: (demoteLoop now (rest.map (fun p => p.userId))
            (demote_to_waitlist now v.userId s e).1
            (demote_to_waitlist now v.userId s e).2.1).2.2) := by
      rw [List.map_cons]
      show demoteLoop now (v.userId :: rest.map (fun p => p.userId)) s e = _
      simp only [demoteLoop, hsucc, if_true]
    refine ⟨?_, ?_, ?_⟩
    · rw [hloop]
      show v.userId :: _ = v.userId :: _
      rw [hrest.1]
    · intro j hj
      rw [hloop]
      cases j with
      | zero =>
        show get_participant_by_user _ v.userId = _
        rw [hrest.2.2 v.userId (fun hm => hndv.1 hm), hlookup]
        show _ = some { v with
          status := PStatus.waitlist, position := (get_waitlist s none).length + 0 + 1 }
        rw [Nat.add_zero]
      | succ j =>
        have hj' : j < rest.length := by simpa using hj
        have h2 := hrest.2.1 j hj'
        rw [hwllen] at h2
        have harith : (get_waitlist s none).length + 1 + j + 1 =
            (get_waitlist s none).length + (j + 1) + 1 := by omega
        rw [harith] at h2
        exact h2
    · intro uid2 hu2
      rw [List.map_cons, List.mem_cons] at hu2
      push_neg at hu2
      rw [hloop]
      show get_participant_by_user _ uid2 = _
      rw [hrest.2.2 uid2 hu2.2, hothers uid2 hu2.1]

/-! ### The promotion step and loop -/

theorem find?_pairs_none_of_not_waitlisted (s1 : Store)
    (hnd1 : (s1.map (fun q => q.pid)).Nodup) (q : Participant)
    (hq : q ∈ s1) (hj : ¬ q.status = PStatus.waitlist) :
    (List.enumFrom 1 (get_waitlist s1 none)).find?
      (fun ip : Nat × Participant => ip.2.pid == q.pid) = none := by
  rw [List.find?_eq_none]
  intro ip hip hbeq
  rw [beq_iff_eq] at hbeq
  have h2 : ip.2 ∈ get_waitlist s1 none := mem_enumFrom_snd _ 1 ip hip
  have h3 : ip.2 ∈ s1 := mem_of_mem_get_waitlist s1 ip.2 h2
  have h4 : ip.2.status = PStatus.waitlist := status_of_mem_get_waitlist s1 ip.2 h2
  have h5 : ip.2 = q :=
    eq_of_mem_of_lookupPid s1 q ip.2 q.pid (lookupPid_of_mem s1 q hq hnd1) h3 hbeq hnd1
  exact hj (h5 ▸ h4)

theorem resequence_fix_of_not_waitlisted (s1 : Store)
    (hnd1 : (s1.map (fun q => q.pid)).Nodup) (q : Participant)
    (hq : q ∈ s1) (hj : ¬ q.status = PStatus.waitlist) :
    (match (List.enumFrom 1 (get_waitlist s1 none)).find?
        (fun ip : Nat × Participant => ip.2.pid == q.pid) with
      | some ip => ({ ip.2 with position := ip.1 } : Participant)
      | none => q) = q := by
  rw [find?_pairs_none_of_not_waitlisted s1 hnd1 q hq hj]

theorem mem_update_document_self (s : Store) (pold pnew : Participant)
    (hmem : pold ∈ s) (hpid : pnew.pid = pold.pid) : pnew ∈ update_document s pnew := by
  have h0 : (if pold.pid = pnew.pid then pnew else pold) ∈
      s.map (fun r => if r.pid = pnew.pid then pnew else r) :=
    List.mem_map_of_mem _ hmem
  rw [if_pos (by rw [hpid])] at h0
  exact h0

theorem mem_update_document_other (s : Store) (pnew q : Participant)
    (hq : q ∈ s) (hne : ¬ q.pid = pnew.pid) : q ∈ update_document s pnew := by
  have h0 : (if q.pid = pnew.pid then pnew else q) ∈
      s.map (fun r => if r.pid = pnew.pid then pnew else r) :=
    List.mem_map_of_mem _ hq
  rw [if_neg hne] at h0
  exact h0

theorem promote_from_waitlist_step (now : Int) (uid : Nat) (s : Store) (e : Event)
    (hndp : (s.map (fun q => q.pid)).Nodup)
    (hndu : (s.map (fun q => q.userId)).Nodup)
    (p : Participant) (hp : get_participant_by_user s uid = some p)
    (hw : p.status = PStatus.waitlist) :
    (promote_from_waitlist now uid s e).2.2 = true ∧
    (promote_from_waitlist now uid s e).1.map (fun q => q.pid) =
      s.map (fun q => q.pid) ∧
    (promote_from_waitlist now uid s e).1.map (fun q => q.userId) =
      s.map (fun q => q.userId) ∧
    get_participant_by_user (promote_from_waitlist now uid s e).1 uid =
      some { p with status := PStatus.joined, position := 0 } ∧
    (∀ uid2, uid2 ≠ uid →
      ((get_participant_by_user (promote_from_waitlist now uid s e).1 uid2).map
          (fun q => q.status) =
        (get_participant_by_user s uid2).map (fun q => q.status)) ∧
      (∀ q, get_participant_by_user s uid2 = some q → q.status = PStatus.joined →
        get_participant_by_user (promote_from_waitlist now uid s e).1 uid2 = some q)) := by
  obtain ⟨hmem, hpuid⟩ := mem_of_get_participant_by_user s uid p hp
  have hple : lookupPid s p.pid = some p := lookupPid_of_mem s p hmem hndp
  have hr : promote_from_waitlist now uid s e =
      ((update_waitlist_positions
          (update_document s { p with status := PStatus.joined, position := 0 })).1,
        increment_participant_count now e, true) := by
    unfold promote_from_waitlist
    rw [hp]
    split
    · rename_i heq
      cases heq
    · rename_i p2 heq
      obtain rfl := Option.some_inj.mp heq
      rw [if_neg (by simp [hw])]
  rw [hr]
  have hpid1 : (update_document s { p with status := PStatus.joined, position := 0 }).map
      (fun q => q.pid) = s.map (fun q => q.pid) := map_pid_update_document s _
  have hnds1 : ((update_document s
      { p with status := PStatus.joined, position := 0 }).map (fun q => q.pid)).Nodup := by
    rw [hpid1]; exact hndp
  have hs2 := update_waitlist_positions_store
    (update_document s { p with status := PStatus.joined, position := 0 }) hnds1
  have hmem1 : ∀ ip ∈ List.enumFrom 1 (get_waitlist
      (update_document s { p with status := PStatus.joined, position := 0 }) none),
      lookupPid (update_document s { p with status := PStatus.joined, position := 0 })
        ip.2.pid = some ip.2 := fun ip hip =>
    lookupPid_of_mem _ ip.2
      (mem_of_mem_get_waitlist _ ip.2 (mem_enumFrom_snd _ 1 ip hip)) hnds1
  have hFuid : ∀ q ∈ update_document s { p with status := PStatus.joined, position := 0 },
      ((fun q : Participant => match (List.enumFrom 1 (get_waitlist
          (update_document s { p with status := PStatus.joined, position := 0 }) none)).find?
          (fun ip : Nat × Participant => ip.2.pid == q.pid) with
        | some ip => ({ ip.2 with position := ip.1 } : Participant)
        | none => q) q).userId = q.userId := fun q hq =>
    (find?_pairs_status _ hnds1 _ hmem1 q hq).2.1
  have hupd := get_participant_by_user_update s p
    { p with status := PStatus.joined, position := 0 } hndp hple rfl rfl
  have hpJmem : ({ p with status := PStatus.joined, position := 0 } : Participant) ∈
      update_document s { p with status := PStatus.joined, position := 0 } :=
    mem_update_document_self s p _ hmem rfl
  refine ⟨rfl, ?_, ?_, ?_, ?_⟩
  · show ((update_waitlist_positions _).1).map (fun q => q.pid) = _
    rw [hs2, map_pid_map _ _ (fun q => find?_pairs_pid _ q), hpid1]
  · show ((update_waitlist_positions _).1).map (fun q => q.userId) = _
    have hFuid2 : ∀ q ∈ update_document s { p with status := PStatus.joined, position := 0 },
        ((fun q : Participant => q.userId) ∘ fun q : Participant =>
          match (List.enumFrom 1 (get_waitlist (update_document s
              { p with status := PStatus.joined, position := 0 }) none)).find?
              (fun ip : Nat × Participant => ip.2.pid == q.pid) with
          | some ip => ({ ip.2 with position := ip.1 } : Participant)
          | none => q) q = q.userId := hFuid
    rw [hs2, List.map_map, List.map_congr_left hFuid2]
    exact map_userId_update_document s p _ hndp hple rfl rfl
  · have h1 : get_participant_by_user
        (update_document s { p with status := PStatus.joined, position := 0 }) uid =
        some { p with status := PStatus.joined, position := 0 } := by
      rw [hupd uid, hp]
      simp
    rw [hs2, get_participant_by_user_map _ _ hFuid, h1, Option.map_some']
    exact congrArg some (resequence_fix_of_not_waitlisted _ hnds1 _ hpJmem (by simp))
  · intro uid2 hne2
    have hcase : ∀ q2, get_participant_by_user s uid2 = some q2 → ¬ q2.pid = p.pid := by
      intro q2 hu he
      obtain ⟨hq2mem, hq2uid⟩ := mem_of_get_participant_by_user s uid2 q2 hu
      have hq2e : q2 = p := eq_of_mem_of_lookupPid s p q2 p.pid hple hq2mem he hndp
      rw [hq2e, hpuid] at hq2uid
      exact hne2 hq2uid.symm
    have h1 : get_participant_by_user
        (update_document s { p with status := PStatus.joined, position := 0 }) uid2 =
        get_participant_by_user s uid2 := by
      rw [hupd uid2]
      cases hu : get_participant_by_user s uid2 with
      | none => rfl
      | some q2 =>
        rw [Option.map_some']
        exact congrArg some (if_neg (hcase q2 hu))
    constructor
    · rw [hs2, get_participant_by_user_map _ _ hFuid, h1]
      cases hu : get_participant_by_user s uid2 with
      | none => rfl
      | some q2 =>
        rw [Option.map_some', Option.map_some', Option.map_some']
        have hq2s1 : q2 ∈ update_document s
            { p with status := PStatus.joined, position := 0 } :=
          mem_update_document_other s _ q2 (mem_of_get_participant_by_user s uid2 q2 hu).1
            (hcase q2 hu)
        exact congrArg some ((find?_pairs_status _ hnds1 _ hmem1 q2 hq2s1).1)
    · intro q hu hqj
      rw [hs2, get_participant_by_user_map _ _ hFuid, h1, hu, Option.map_some']
      have hqs1 : q ∈ update_document s
          { p with status := PStatus.joined, position := 0 } :=
        mem_update_document_other s _ q (mem_of_get_participant_by_user s uid2 q hu).1
          (hcase q hu)
      exact congrArg some (resequence_fix_of_not_waitlisted _ hnds1 q hqs1 (by simp [hqj]))

theorem promoteLoop_spec (now : Int) :
    ∀ (uids : List Nat) (s : Store) (e : Event),
      (s.map (fun q => q.pid)).Nodup →
      (s.map (fun q => q.userId)).Nodup →
      uids.Nodup →
      (∀ uid ∈ uids, ∃ p, get_participant_by_user s uid = some p ∧
        p.status = PStatus.waitlist) →
      (promoteLoop now uids s e).2.2 = uids ∧
      (∀ uid ∈ uids, ∃ p, get_participant_by_user (promoteLoop now uids s e).1 uid = some p ∧
        p.status = PStatus.joined ∧ p.position = 0) ∧
      (∀ uid2, uid2 ∉ uids →
        ((get_participant_by_user (promoteLoop now uids s e).1 uid2).map (fun q => q.status) =
          (get_participant_by_user s uid2).map (fun q => q.status)) ∧
        (∀ q, get_participant_by_user s uid2 = some q → q.status = PStatus.joined →
          get_participant_by_user (promoteLoop now uids s e).1 uid2 = some q)) := by
  intro uids
  induction uids with
  | nil =>
    intro s e _ _ _ _
    exact ⟨rfl, fun uid h => absurd h (List.not_mem_nil uid),
      fun uid2 _ => ⟨rfl, fun q hq _ => hq⟩⟩
  | cons uid rest ih =>
    intro s e hndp hndu hnodup hW
    obtain ⟨p, hp, hw⟩ := hW uid (List.mem_cons_self _ _)
    have hstep := promote_from_waitlist_step now uid s e hndp hndu p hp hw
    obtain ⟨hsucc, hpidmap, huidmap, hlookup, hothers⟩ := hstep
    rw [List.nodup_cons] at hnodup
    have hndp1 : ((promote_from_waitlist now uid s e).1.map (fun q => q.pid)).Nodup := by
      rw [hpidmap]; exact hndp
    have hndu1 : ((promote_from_waitlist now uid s e).1.map (fun q => q.userId)).Nodup := by
      rw [huidmap]; exact hndu
    have hW1 : ∀ u ∈ rest, ∃ q, get_participant_by_user
        (promote_from_waitlist now uid s e).1 u = some q ∧
        q.status = PStatus.waitlist := by
      intro u hu
      have hune : u ≠ uid := fun he => hnodup.1 (he ▸ hu)
      obtain ⟨q, hq, hqw⟩ := hW u (List.mem_cons_of_mem _ hu)
      have hstat := (hothers u hune).1
      rw [hq] at hstat
      cases hr2 : get_participant_by_user (promote_from_waitlist now uid s e).1 u with
      | none => rw [hr2] at hstat; simp at hstat
      | some q2 =>
        rw [hr2] at hstat
        simp only [Option.map_some', Option.some_inj] at hstat
        exact ⟨q2, rfl, by rw [hstat, hqw]⟩
    have hrest := ih (promote_from_waitlist now uid s e).1
      (promote_from_waitlist now uid s e).2.1 hndp1 hndu1 hnodup.2 hW1
    have hloop : promoteLoop now (uid :: rest) s e =
        ((promoteLoop now rest (promote_from_waitlist now uid s e).1
            (promote_from_waitlist now uid s e).2.1).1,
          (promoteLoop now rest (promote_from_waitlist now uid s e).1
            (promote_from_waitlist now uid s e).2.1).2.1,
          uid :: (promoteLoop now rest (promote_from_waitlist now uid s e).1
            (promote_from_waitlist now uid s e).2.1).2.2) := by
      simp only [promoteLoop, hsucc, if_true]
    refine ⟨?_, ?_, ?_⟩
    · rw [hloop]
      show uid :: _ = uid :: rest
      rw [hrest.1]
    · intro u hu
      rcases List.mem_cons.mp hu with rfl | hu2
      · rw [hloop]
        have hfix := (hrest.2.2 u (fun hm => hnodup.1 hm)).2
          { p with status := PStatus.joined, position := 0 } hlookup rfl
        exact ⟨{ p with status := PStatus.joined, position := 0 }, hfix, rfl, rfl⟩
      · rw [hloop]
        exact hrest.2.1 u hu2
    · intro uid2 hu2
      rw [List.mem_cons] at hu2
      push_neg at hu2
      rw [hloop]
      refine ⟨?_, ?_⟩
      · show (get_participant_by_user (promoteLoop now rest _ _).1 uid2).map _ = _
        rw [(hrest.2.2 uid2 hu2.2).1, (hothers uid2 hu2.1).1]
      · intro q hq hqj
        have h1 := (hothers uid2 hu2.1).2 q hq hqj
        exact (hrest.2.2 uid2 hu2.2).2 q h1 hqj

/-! ### Comparator facts and nodup transfer -/

theorem byPosition_total : ∀ a b : Participant,
    byPosition a b = true ∨ byPosition b a = true := by
  intro a b
  unfold byPosition
  rcases Nat.le_total a.position b.position with h | h
  · exact Or.inl (decide_eq_true h)
  · exact Or.inr (decide_eq_true h)

theorem byPosition_trans : ∀ a b c : Participant, byPosition a b = true →
    byPosition b c = true → byPosition a c = true := by
  intro a b c hab hbc
  unfold byPosition at hab hbc ⊢
  rw [decide_eq_true_eq] at hab hbc ⊢
  exact le_trans hab hbc

theorem byJoinedAtDesc_total : ∀ a b : Participant,
    byJoinedAtDesc a b = true ∨ byJoinedAtDesc b a = true := by
  intro a b
  unfold byJoinedAtDesc
  rcases le_total b.joinedAt a.joinedAt with h | h
  · exact Or.inl (decide_eq_true h)
  · exact Or.inr (decide_eq_true h)

theorem byJoinedAtDesc_trans : ∀ a b c : Participant, byJoinedAtDesc a b = true →
    byJoinedAtDesc b c = true → byJoinedAtDesc a c = true := by
  intro a b c hab hbc
  unfold byJoinedAtDesc at hab hbc ⊢
  rw [decide_eq_true_eq] at hab hbc ⊢
  exact le_trans hbc hab

theorem get_participants_userId_nodup (s : Store)
    (hndu : (s.map (fun q => q.userId)).Nodup) :
    ((get_participants s none).map (fun q => q.userId)).Nodup := by
  have hsub : ((s.filter isJoined).map (fun q => q.userId)).Nodup :=
    hndu.sublist ((List.filter_sublist s).map _)
  exact ((sortBy_perm byJoinedAt (s.filter isJoined)).map
    (fun q => q.userId)).nodup_iff.mpr hsub

theorem get_waitlist_userId_nodup (s : Store)
    (hndu : (s.map (fun q => q.userId)).Nodup) :
    ((get_waitlist s none).map (fun q => q.userId)).Nodup := by
  have hsub : ((s.filter isWaitlisted).map (fun q => q.userId)).Nodup :=
    hndu.sublist ((List.filter_sublist s).map _)
  exact ((sortBy_perm byPosition (s.filter isWaitlisted)).map
    (fun q => q.userId)).nodup_iff.mpr hsub

theorem sortBy_map_nodup (le : Participant → Participant → Bool)
    (f : Participant → Nat) (l : List Participant) (h : (l.map f).Nodup) :
    ((sortBy le l).map f).Nodup :=
  ((sortBy_perm le l).map f).nodup_iff.mpr h

/-! ### Claim theorems -/

/-- C2: `update_status` (the spec's `recompute_status`) is the three-step
transition function: at occupancy at or above capacity an ACTIVE event
becomes FULL; otherwise below capacity a FULL event becomes ACTIVE; then,
regardless, a start time in the past turns an ACTIVE or FULL event into
COMPLETED; no other field changes, and a CLOSED or CANCELLED event is never
changed by this function. -/
theorem update_status_is_recompute_status (now : Int) (e : Event) :
    (update_status now e =
      (let s1 :=
        if (e.maxParticipants : Int) ≤ e.currentParticipants ∧ e.status = EventStatus.active then
          EventStatus.full
        else if e.currentParticipants < (e.maxParticipants : Int) ∧ e.status = EventStatus.full then
          EventStatus.active
        else e.status
      let s2 :=
        if e.startTime < now ∧ (s1 = EventStatus.active ∨ s1 = EventStatus.full) then
          EventStatus.completed
        else s1
      { e with status := s2 })) ∧
    ((e.status = EventStatus.closed ∨ e.status = EventStatus.cancelled) →
      update_status now e = e) := by
  obtain ⟨start, maxP, cur, status, rem⟩ := e
  constructor
  · unfold update_status is_full
    cases status <;>
      simp only [Bool.and_eq_true, Bool.or_eq_true, decide_eq_true_eq, beq_iff_eq,
        Bool.not_eq_true', decide_eq_false_iff_not, not_le] <;>
      split_ifs <;>
      simp_all
  · intro h
    rcases h with h | h <;> simp only at h <;> subst h <;>
      simp [update_status, is_full]

/-- C2 witness: a concrete CLOSED event at capacity with start time in the
past is untouched by `update_status`. -/
theorem update_status_is_recompute_status_witness :
    (update_status 10 ⟨5, 3, 3, EventStatus.closed, false⟩ =
      ⟨5, 3, 3, EventStatus.closed, false⟩) ∧
    update_status 10 ⟨5, 3, 3, EventStatus.active, false⟩ =
      ⟨5, 3, 3, EventStatus.completed, false⟩ := by
  constructor
  · exact (update_status_is_recompute_status 10 ⟨5, 3, 3, EventStatus.closed, false⟩).2
      (Or.inl rfl)
  · rw [(update_status_is_recompute_status 10 ⟨5, 3, 3, EventStatus.active, false⟩).1]
    decide

/-- C9: the participant counter never becomes negative: `decrement` clamps
at zero (it computes `max 0 (current - 1)`), so any sequence of increments
and decrements starting from a non-negative counter keeps it non-negative. -/
theorem counter_never_negative (now : Int) (ops : List CounterOp) (e : Event)
    (h : 0 ≤ e.currentParticipants) :
    0 ≤ (applyCounterOps now ops e).currentParticipants ∧
    (decrement_participant_count now e).currentParticipants =
      max 0 (e.currentParticipants - 1) := by
  refine ⟨?_, decrement_currentParticipants now e⟩
  induction ops generalizing e with
  | nil => exact h
  | cons op rest ih =>
    have hstep : 0 ≤ (applyCounterOp now e op).currentParticipants := by
      cases op with
      | inc => rw [applyCounterOp, increment_currentParticipants]; omega
      | dec => rw [applyCounterOp, decrement_currentParticipants]; omega
    exact ih _ hstep

/-- C9 witness: three decrements followed by an increment and two more
decrements, starting from zero, keep the counter non-negative. -/
theorem counter_never_negative_witness :
    0 ≤ (applyCounterOps 0
      [CounterOp.dec, CounterOp.dec, CounterOp.dec, CounterOp.inc, CounterOp.dec, CounterOp.dec]
      ⟨100, 5, 0, EventStatus.active, false⟩).currentParticipants ∧
    (decrement_participant_count 0 ⟨100, 5, 0, EventStatus.active, false⟩).currentParticipants =
      max 0 (0 - 1) :=
  counter_never_negative 0
    [CounterOp.dec, CounterOp.dec, CounterOp.dec, CounterOp.inc, CounterOp.dec, CounterOp.dec]
    ⟨100, 5, 0, EventStatus.active, false⟩ (by decide)

/-- C10: the join-admission gate `can_user_join` reads only the stored
status field, never the clock: an ACTIVE or FULL event passes the gate even
when its start time is already in the past, and a `join_event` call by a
fresh user on such an event still creates a participant record.  When the
completion sweep later rewrites the status to COMPLETED, the gate blocks. -/
theorem can_user_join_ignores_clock (now : Int) (pid uid : Nat) (st : SysState)
    (hpast : st.event.startTime < now)
    (hst : st.event.status = EventStatus.active ∨ st.event.status = EventStatus.full)
    (hnot : get_participant_by_user st.store uid = none) :
    can_user_join st.event = none ∧
    (join_event now pid uid st).state.store.length = st.store.length + 1 ∧
    can_user_join (check_completed_event now st.event) ≠ none := by
  have hcan : can_user_join st.event = none := by
    rcases hst with h | h <;> simp [can_user_join, h]
  refine ⟨hcan, ?_, ?_⟩
  · unfold join_event
    rw [hcan]
    simp only [hnot, Option.isSome_none, Bool.false_eq_true, if_false]
    split <;> simp
  · unfold check_completed_event
    rcases hst with h | h <;>
      simp [h, hpast, can_user_join]

/-- C10 witness: a concrete ACTIVE event whose start time has passed still
admits a join. -/
theorem can_user_join_ignores_clock_witness :
    ((⟨[], ⟨0, 4, 0, EventStatus.active, false⟩⟩ : SysState).event.startTime < 50) ∧
    can_user_join (⟨[], ⟨0, 4, 0, EventStatus.active, false⟩⟩ : SysState).event = none ∧
    (join_event 50 1 7 (⟨[], ⟨0, 4, 0, EventStatus.active, false⟩⟩ : SysState)).state.store.length =
      ([] : Store).length + 1 := by
  have h := can_user_join_ignores_clock 50 1 7 ⟨[], ⟨0, 4, 0, EventStatus.active, false⟩⟩
    (by decide) (Or.inl rfl) rfl
  exact ⟨by decide, h.1, h.2.1⟩

/-- C6: `join_event` on a CLOSED, CANCELLED or COMPLETED event fails with
the corresponding typed failure, creating no participant record and
changing no event field; on an ACTIVE or FULL event the status gate does
not block (FULL joins fall through to the waitlist path rather than
failing). -/
theorem join_event_status_gate (now : Int) (pid uid : Nat) (st : SysState) :
    (st.event.status = EventStatus.closed →
      join_event now pid uid st = ⟨st, JoinOutcome.failure JoinError.recruitmentClosed⟩) ∧
    (st.event.status = EventStatus.cancelled →
      join_event now pid uid st = ⟨st, JoinOutcome.failure JoinError.eventCancelled⟩) ∧
    (st.event.status = EventStatus.completed →
      join_event now pid uid st = ⟨st, JoinOutcome.failure JoinError.eventCompleted⟩) ∧
    ((st.event.status = EventStatus.active ∨ st.event.status = EventStatus.full) →
      can_user_join st.event = none ∧
      (get_participant_by_user st.store uid = none →
        st.event.maxParticipants ≤ (get_participants st.store none).length →
        (join_event now pid uid st).outcome =
          JoinOutcome.waitlisted ((get_waitlist st.store none).length + 1))) := by
  refine ⟨?_, ?_, ?_, ?_⟩
  · intro h; unfold join_event; simp [can_user_join, h]
  · intro h; unfold join_event; simp [can_user_join, h]
  · intro h; unfold join_event; simp [can_user_join, h]
  · intro h
    have hcan : can_user_join st.event = none := by
      rcases h with h | h <;> simp [can_user_join, h]
    refine ⟨hcan, fun hnot hfullcnt => ?_⟩
    unfold join_event
    rw [hcan]
    simp only [hnot, Option.isSome_none, Bool.false_eq_true, if_false]
    rw [if_neg (by omega)]

/-- C6 witness: the gate at each concrete status. -/
theorem join_event_status_gate_witness :
    join_event 0 1 7 (⟨[], ⟨9, 2, 0, EventStatus.closed, false⟩⟩ : SysState) =
      ⟨⟨[], ⟨9, 2, 0, EventStatus.closed, false⟩⟩, JoinOutcome.failure JoinError.recruitmentClosed⟩ ∧
    join_event 0 1 7 (⟨[], ⟨9, 2, 0, EventStatus.cancelled, false⟩⟩ : SysState) =
      ⟨⟨[], ⟨9, 2, 0, EventStatus.cancelled, false⟩⟩, JoinOutcome.failure JoinError.eventCancelled⟩ ∧
    join_event 0 1 7 (⟨[], ⟨9, 2, 0, EventStatus.completed, false⟩⟩ : SysState) =
      ⟨⟨[], ⟨9, 2, 0, EventStatus.completed, false⟩⟩, JoinOutcome.failure JoinError.eventCompleted⟩ ∧
    can_user_join (⟨9, 2, 0, EventStatus.full, false⟩ : Event) = none := by
  refine ⟨?_, ?_, ?_, ?_⟩
  · exact (join_event_status_gate 0 1 7 ⟨[], ⟨9, 2, 0, EventStatus.closed, false⟩⟩).1 rfl
  · exact (join_event_status_gate 0 1 7 ⟨[], ⟨9, 2, 0, EventStatus.cancelled, false⟩⟩).2.1 rfl
  · exact (join_event_status_gate 0 1 7 ⟨[], ⟨9, 2, 0, EventStatus.completed, false⟩⟩).2.2.1 rfl
  · exact ((join_event_status_gate 0 1 7 ⟨[], ⟨9, 2, 0, EventStatus.full, false⟩⟩).2.2.2
      (Or.inr rfl)).1

/-- C5: on an event whose status admits joins, a fresh user joins directly
with a JOINED record at position 0 and an incremented counter when the
JOINED count is below capacity, and otherwise is appended to the waitlist
at position `waitlist_length + 1` with the counter untouched; a user with
an existing record (joined or waitlisted) fails with
`alreadyParticipating` and no record is created. -/
theorem join_event_admission (now : Int) (pid uid : Nat) (st : SysState)
    (hcan : can_user_join st.event = none) :
    (get_participant_by_user st.store uid = none →
      ((get_participants st.store none).length < st.event.maxParticipants →
        join_event now pid uid st =
          ⟨⟨st.store ++ [⟨pid, uid, PStatus.joined, 0, now⟩],
            increment_participant_count now st.event⟩, JoinOutcome.joinedDirect⟩ ∧
        (increment_participant_count now st.event).currentParticipants =
          st.event.currentParticipants + 1) ∧
      (st.event.maxParticipants ≤ (get_participants st.store none).length →
        join_event now pid uid st =
          ⟨⟨st.store ++ [⟨pid, uid, PStatus.waitlist, (get_waitlist st.store none).length + 1, now⟩],
            st.event⟩, JoinOutcome.waitlisted ((get_waitlist st.store none).length + 1)⟩)) ∧
    (get_participant_by_user st.store uid ≠ none →
      join_event now pid uid st = ⟨st, JoinOutcome.failure JoinError.alreadyParticipating⟩) := by
  constructor
  · intro hnot
    constructor
    · intro hroom
      refine ⟨?_, increment_currentParticipants now st.event⟩
      unfold join_event
      rw [hcan]
      simp only [hnot, Option.isSome_none, Bool.false_eq_true, if_false]
      rw [if_pos hroom]
    · intro hfull
      unfold join_event
      rw [hcan]
      simp only [hnot, Option.isSome_none, Bool.false_eq_true, if_false]
      rw [if_neg (by omega)]
  · intro hexists
    unfold join_event
    rw [hcan]
    simp only [Option.ne_none_iff_isSome] at hexists
    rw [if_pos hexists]

/-- C5 witness: a store with one joined user and capacity 2; a fresh user
joins directly, and the incumbent cannot re-join. -/
theorem join_event_admission_witness :
    (get_participant_by_user [⟨1, 1, PStatus.joined, 0, 0⟩] 7 = none →
      ((get_participants [⟨1, 1, PStatus.joined, 0, 0⟩] none).length < 2 →
        join_event 5 2 7 ⟨[⟨1, 1, PStatus.joined, 0, 0⟩], ⟨9, 2, 1, EventStatus.active, false⟩⟩ =
          ⟨⟨[⟨1, 1, PStatus.joined, 0, 0⟩] ++ [⟨2, 7, PStatus.joined, 0, 5⟩],
            increment_participant_count 5 ⟨9, 2, 1, EventStatus.active, false⟩⟩,
            JoinOutcome.joinedDirect⟩ ∧
        (increment_participant_count 5 ⟨9, 2, 1, EventStatus.active, false⟩).currentParticipants =
          (1 : Int) + 1) ∧
      (2 ≤ (get_participants [⟨1, 1, PStatus.joined, 0, 0⟩] none).length →
        join_event 5 2 7 ⟨[⟨1, 1, PStatus.joined, 0, 0⟩], ⟨9, 2, 1, EventStatus.active, false⟩⟩ =
          ⟨⟨[⟨1, 1, PStatus.joined, 0, 0⟩] ++
              [⟨2, 7, PStatus.waitlist, (get_waitlist [⟨1, 1, PStatus.joined, 0, 0⟩] none).length + 1, 5⟩],
            ⟨9, 2, 1, EventStatus.active, false⟩⟩,
            JoinOutcome.waitlisted ((get_waitlist [⟨1, 1, PStatus.joined, 0, 0⟩] none).length + 1)⟩)) ∧
    (get_participant_by_user [⟨1, 1, PStatus.joined, 0, 0⟩] 1 ≠ none →
      join_event 5 2 1 ⟨[⟨1, 1, PStatus.joined, 0, 0⟩], ⟨9, 2, 1, EventStatus.active, false⟩⟩ =
        ⟨⟨[⟨1, 1, PStatus.joined, 0, 0⟩], ⟨9, 2, 1, EventStatus.active, false⟩⟩,
          JoinOutcome.failure JoinError.alreadyParticipating⟩) :=
  ⟨(join_event_admission 5 2 7 ⟨[⟨1, 1, PStatus.joined, 0, 0⟩], ⟨9, 2, 1, EventStatus.active, false⟩⟩
      rfl).1,
   (join_event_admission 5 2 1 ⟨[⟨1, 1, PStatus.joined, 0, 0⟩], ⟨9, 2, 1, EventStatus.active, false⟩⟩
      rfl).2⟩

theorem send_reminder_sets_flag (store : Store) (e : Event) :
    send_reminder store e = { e with reminderSent := true } := by
  unfold send_reminder
  dsimp only
  split <;> rfl

/-- C7: the reminder sweep attempts a send only for an unsent event with
status ACTIVE, FULL or CLOSED whose start time lies in the half-open window
`[start_time - window, start_time)`; any attempt (including the
no-participants fallback) sets `reminder_sent`, after which every later
sweep is a no-op for that event, so at most one attempt ever happens. -/
theorem reminder_sweep_at_most_once (now window : Int) (store : Store) (e : Event) :
    ((check_reminder_event now window store e).2 = true →
      e.reminderSent = false ∧
      (e.status = EventStatus.active ∨ e.status = EventStatus.full ∨
        e.status = EventStatus.closed) ∧
      e.startTime - window ≤ now ∧ now < e.startTime) ∧
    ((check_reminder_event now window store e).2 = true →
      (check_reminder_event now window store e).1.reminderSent = true) ∧
    ((check_reminder_event now window store e).2 = false →
      (check_reminder_event now window store e).1 = e) ∧
    (e.reminderSent = true → check_reminder_event now window store e = (e, false)) ∧
    ((check_reminder_event now window store e).1.reminderSent = true →
      ∀ now2 window2 store2,
        check_reminder_event now2 window2 store2 (check_reminder_event now window store e).1 =
          ((check_reminder_event now window store e).1, false)) := by
  refine ⟨?_, ?_, ?_, ?_, ?_⟩
  · intro hatt
    unfold check_reminder_event at hatt
    split_ifs at hatt with h1 h2 h3
    have h1' : e.reminderSent = false := by revert h1; cases e.reminderSent <;> simp
    have hst : e.status = EventStatus.active ∨ e.status = EventStatus.full ∨
        e.status = EventStatus.closed := by
      revert h2; cases e.status <;> simp
    unfold should_send_reminder at h3
    rw [h1'] at h3
    simp only [Bool.false_eq_true, if_false, Bool.and_eq_true, decide_eq_true_eq] at h3
    exact ⟨h1', hst, h3.1, h3.2⟩
  · intro hatt
    unfold check_reminder_event at hatt ⊢
    split_ifs at hatt ⊢ with h1 h2 h3
    rw [send_reminder_sets_flag]
  · intro hatt
    unfold check_reminder_event at hatt ⊢
    split_ifs at hatt ⊢ with h1 h2 h3 <;> rfl
  · intro hsent
    unfold check_reminder_event
    rw [if_pos hsent]
  · intro hdone now2 window2 store2
    generalize (check_reminder_event now window store e).1 = e1 at hdone ⊢
    unfold check_reminder_event
    rw [if_pos hdone]

/-- C7 witness: an unsent ACTIVE event inside the window is attempted and
marked sent; a second sweep at any later time is then a no-op. -/
theorem reminder_sweep_at_most_once_witness :
    ((check_reminder_event 80 30 [] ⟨100, 4, 0, EventStatus.active, false⟩).2 = true →
      (⟨100, 4, 0, EventStatus.active, false⟩ : Event).reminderSent = false ∧
      ((⟨100, 4, 0, EventStatus.active, false⟩ : Event).status = EventStatus.active ∨
        (⟨100, 4, 0, EventStatus.active, false⟩ : Event).status = EventStatus.full ∨
        (⟨100, 4, 0, EventStatus.active, false⟩ : Event).status = EventStatus.closed) ∧
      (100 : Int) - 30 ≤ 80 ∧ (80 : Int) < 100) ∧
    (check_reminder_event 80 30 [] ⟨100, 4, 0, EventStatus.active, false⟩).1.reminderSent = true ∧
    check_reminder_event 95 30 []
        (check_reminder_event 80 30 [] ⟨100, 4, 0, EventStatus.active, false⟩).1 =
      ((check_reminder_event 80 30 [] ⟨100, 4, 0, EventStatus.active, false⟩).1, false) := by
  have h := reminder_sweep_at_most_once 80 30 [] ⟨100, 4, 0, EventStatus.active, false⟩
  have hatt : (check_reminder_event 80 30 [] ⟨100, 4, 0, EventStatus.active, false⟩).2 = true := by
    decide
  have hsent := h.2.1 hatt
  exact ⟨h.1, hsent, h.2.2.2.2 hsent 95 30 []⟩

/-- C8: after `_update_waitlist_positions` (the spec's `resequence_waitlist`)
the waitlist positions are exactly the contiguous block 1..N with no gaps or
duplicates; the user who stood at 1-based rank i of the prior waitlist holds
position i afterwards (prior relative order preserved); and exactly the
records whose prior position differed from their rank are written back. -/
theorem resequence_waitlist_contiguous (store : Store)
    (hnd : (store.map (fun q => q.pid)).Nodup) :
    (((update_waitlist_positions store).1.filter isWaitlisted).map
        (fun p => p.position)).Perm
      (List.range' 1 (get_waitlist store none).length) ∧
    (∀ ip ∈ List.enumFrom 1 (get_waitlist store none),
      lookupPid (update_waitlist_positions store).1 ip.2.pid =
        some { ip.2 with position := ip.1 }) ∧
    (update_waitlist_positions store).2 =
      ((List.enumFrom 1 (get_waitlist store none)).filter
        (fun ip => decide (ip.2.position ≠ ip.1))).map (fun ip => ip.2.pid) :=
  ⟨resequence_positions_perm store hnd, resequence_lookup store hnd,
    applyPositions_written _ store⟩

/-- C8 witness: a store with waitlist positions 3 and 1 (and one joined
record) is resequenced to positions 2 and 1; only the record whose position
changed (document 1) is written. -/
theorem resequence_waitlist_contiguous_witness :
    ((((update_waitlist_positions
      [⟨1, 10, PStatus.waitlist, 3, 0⟩, ⟨2, 20, PStatus.joined, 0, 0⟩,
        ⟨3, 30, PStatus.waitlist, 1, 5⟩]).1.filter isWaitlisted).map
          (fun p => p.position)).Perm
        (List.range' 1 (get_waitlist
          [⟨1, 10, PStatus.waitlist, 3, 0⟩, ⟨2, 20, PStatus.joined, 0, 0⟩,
            ⟨3, 30, PStatus.waitlist, 1, 5⟩] none).length)) ∧
    lookupPid (update_waitlist_positions
      [⟨1, 10, PStatus.waitlist, 3, 0⟩, ⟨2, 20, PStatus.joined, 0, 0⟩,
        ⟨3, 30, PStatus.waitlist, 1, 5⟩]).1 1 = some ⟨1, 10, PStatus.waitlist, 2, 0⟩ ∧
    (update_waitlist_positions
      [⟨1, 10, PStatus.waitlist, 3, 0⟩, ⟨2, 20, PStatus.joined, 0, 0⟩,
        ⟨3, 30, PStatus.waitlist, 1, 5⟩]).2 = [1] := by
  have h := resequence_waitlist_contiguous
    [⟨1, 10, PStatus.waitlist, 3, 0⟩, ⟨2, 20, PStatus.joined, 0, 0⟩,
      ⟨3, 30, PStatus.waitlist, 1, 5⟩] (by decide)
  refine ⟨h.1, ?_, ?_⟩
  · exact h.2.1 (2, ⟨1, 10, PStatus.waitlist, 3, 0⟩) (by decide)
  · rw [h.2.2]
    decide

/-- C4: on a capacity decrease that leaves more JOINED participants than the
new maximum, the reconciler demotes exactly the `excess` most-recently-joined
participants (joined participants sorted by join time descending, first
`excess` taken), appending each to the waitlist in the order processed at
position `initial_waitlist_length + j + 1`; every other joined participant's
record is untouched, and no demoted participant joined strictly earlier than
a participant who remains JOINED. -/
theorem capacity_decrease_demotes_latest (now : Int) (oldMax : Nat) (st : SysState)
    (hndp : (st.store.map (fun q => q.pid)).Nodup)
    (hndu : (st.store.map (fun q => q.userId)).Nodup)
    (hdec : st.event.maxParticipants < oldMax)
    (hover : st.event.maxParticipants < (get_participants st.store none).length) :
    (handle_capacity_change now oldMax st).demoted =
      ((sortBy byJoinedAtDesc (get_participants st.store none)).take
        ((get_participants st.store none).length - st.event.maxParticipants)).map
          (fun p => p.userId) ∧
    (∀ j, (hj : j < ((sortBy byJoinedAtDesc (get_participants st.store none)).take
        ((get_participants st.store none).length - st.event.maxParticipants)).length) →
      get_participant_by_user (handle_capacity_change now oldMax st).store
          ((((sortBy byJoinedAtDesc (get_participants st.store none)).take
            ((get_participants st.store none).length - st.event.maxParticipants)).get
              ⟨j, hj⟩).userId) =
        some { ((sortBy byJoinedAtDesc (get_participants st.store none)).take
            ((get_participants st.store none).length - st.event.maxParticipants)).get
              ⟨j, hj⟩ with
          status := PStatus.waitlist,
          position := (get_waitlist st.store none).length + j + 1 }) ∧
    (∀ q ∈ get_participants st.store none,
      q.userId ∉ ((sortBy byJoinedAtDesc (get_participants st.store none)).take
        ((get_participants st.store none).length - st.event.maxParticipants)).map
          (fun p => p.userId) →
      get_participant_by_user (handle_capacity_change now oldMax st).store q.userId =
        some q) ∧
    (∀ a ∈ (sortBy byJoinedAtDesc (get_participants st.store none)).take
        ((get_participants st.store none).length - st.event.maxParticipants),
      ∀ b ∈ (sortBy byJoinedAtDesc (get_participants st.store none)).drop
        ((get_participants st.store none).length - st.event.maxParticipants),
      b.joinedAt ≤ a.joinedAt) := by
  have hnotinc : ¬ oldMax < st.event.maxParticipants := by omega
  have hstore : (handle_capacity_change now oldMax st).store =
      (demoteLoop now (((sortBy byJoinedAtDesc (get_participants st.store none)).take
        ((get_participants st.store none).length - st.event.maxParticipants)).map
          (fun p => p.userId)) st.store st.event).1 := by
    unfold handle_capacity_change
    simp only [if_neg hnotinc, if_pos hdec, if_pos hover]
  have hdem : (handle_capacity_change now oldMax st).demoted =
      (demoteLoop now (((sortBy byJoinedAtDesc (get_participants st.store none)).take
        ((get_participants st.store none).length - st.event.maxParticipants)).map
          (fun p => p.userId)) st.store st.event).2.2 := by
    unfold handle_capacity_change
    simp only [if_neg hnotinc, if_pos hdec, if_pos hover]
  have hvnodup : ((((sortBy byJoinedAtDesc (get_participants st.store none)).take
      ((get_participants st.store none).length - st.event.maxParticipants)).map
        (fun p => p.userId))).Nodup := by
    have h1 := sortBy_map_nodup byJoinedAtDesc (fun q => q.userId)
      (get_participants st.store none) (get_participants_userId_nodup st.store hndu)
    exact h1.sublist ((List.take_sublist _ _).map _)
  have hvmem : ∀ q ∈ (sortBy byJoinedAtDesc (get_participants st.store none)).take
      ((get_participants st.store none).length - st.event.maxParticipants),
      get_participant_by_user st.store q.userId = some q ∧
        q.status = PStatus.joined := by
    intro q hq
    have h1 : q ∈ sortBy byJoinedAtDesc (get_participants st.store none) :=
      List.take_subset _ _ hq
    have h2 : q ∈ get_participants st.store none :=
      (sortBy_perm byJoinedAtDesc _).mem_iff.mp h1
    exact ⟨get_participant_by_user_of_mem st.store q
        (mem_of_mem_get_participants st.store q h2) hndu,
      status_of_mem_get_participants st.store q h2⟩
  have hloop := demoteLoop_spec now ((sortBy byJoinedAtDesc (get_participants st.store none)).take
      ((get_participants st.store none).length - st.event.maxParticipants))
    st.store st.event hndp hndu hvnodup hvmem
  refine ⟨?_, ?_, ?_, ?_⟩
  · rw [hdem, hloop.1]
  · intro j hj
    rw [hstore]
    exact hloop.2.1 j hj
  · intro q hq hnv
    rw [hstore, hloop.2.2 q.userId hnv]
    exact get_participant_by_user_of_mem st.store q
      (mem_of_mem_get_participants st.store q hq) hndu
  · have hsorted := sortBy_pairwise byJoinedAtDesc byJoinedAtDesc_total byJoinedAtDesc_trans
      (get_participants st.store none)
    have hsplit : sortBy byJoinedAtDesc (get_participants st.store none) =
        (sortBy byJoinedAtDesc (get_participants st.store none)).take
          ((get_participants st.store none).length - st.event.maxParticipants) ++
        (sortBy byJoinedAtDesc (get_participants st.store none)).drop
          ((get_participants st.store none).length - st.event.maxParticipants) :=
      (List.take_append_drop _ _).symm
    rw [hsplit] at hsorted
    intro a ha b hb
    have h := (List.pairwise_append.mp hsorted).2.2 a ha b hb
    rwa [byJoinedAtDesc, decide_eq_true_eq] at h

/-- C3: on a capacity increase with free slots and a non-empty waitlist, the
reconciler promotes exactly `min(available, waitlist_length)` users, taken
from the front of the waitlist so their original waitlist positions are
strictly ascending (earliest-waiting first), and each promoted user ends
JOINED at position 0. -/
theorem capacity_increase_promotes_in_order (now : Int) (oldMax : Nat) (st : SysState)
    (hndp : (st.store.map (fun q => q.pid)).Nodup)
    (hndu : (st.store.map (fun q => q.userId)).Nodup)
    (hposnd : ((st.store.filter isWaitlisted).map (fun q => q.position)).Nodup)
    (hinc : oldMax < st.event.maxParticipants)
    (havail : 0 < (st.event.maxParticipants : Int) -
      ((get_participants st.store none).length : Int))
    (hwl : get_waitlist st.store none ≠ []) :
    (handle_capacity_change now oldMax st).promoted =
      ((get_waitlist st.store none).take
        (min ((st.event.maxParticipants : Int) -
          ((get_participants st.store none).length : Int)).toNat
          (get_waitlist st.store none).length)).map (fun p => p.userId) ∧
    (((get_waitlist st.store none).take
        (min ((st.event.maxParticipants : Int) -
          ((get_participants st.store none).length : Int)).toNat
          (get_waitlist st.store none).length)).map (fun p => p.position)).Pairwise
      (fun a b => a < b) ∧
    (∀ uid ∈ (handle_capacity_change now oldMax st).promoted,
      ∃ p, get_participant_by_user (handle_capacity_change now oldMax st).store uid =
        some p ∧ p.status = PStatus.joined ∧ p.position = 0) := by
  have hstore : (handle_capacity_change now oldMax st).store =
      (promoteLoop now (((get_waitlist st.store none).take
        (min ((st.event.maxParticipants : Int) -
          ((get_participants st.store none).length : Int)).toNat
          (get_waitlist st.store none).length)).map (fun p => p.userId))
        st.store st.event).1 := by
    unfold handle_capacity_change
    simp only [if_pos hinc, if_pos (And.intro havail hwl)]
  have hprom : (handle_capacity_change now oldMax st).promoted =
      (promoteLoop now (((get_waitlist st.store none).take
        (min ((st.event.maxParticipants : Int) -
          ((get_participants st.store none).length : Int)).toNat
          (get_waitlist st.store none).length)).map (fun p => p.userId))
        st.store st.event).2.2 := by
    unfold handle_capacity_change
    simp only [if_pos hinc, if_pos (And.intro havail hwl)]
  have huids_nodup : (((get_waitlist st.store none).take
      (min ((st.event.maxParticipants : Int) -
        ((get_participants st.store none).length : Int)).toNat
        (get_waitlist st.store none).length)).map (fun p => p.userId)).Nodup :=
    (get_waitlist_userId_nodup st.store hndu).sublist ((List.take_sublist _ _).map _)
  have hWstep : ∀ uid ∈ ((get_waitlist st.store none).take
      (min ((st.event.maxParticipants : Int) -
        ((get_participants st.store none).length : Int)).toNat
        (get_waitlist st.store none).length)).map (fun p => p.userId),
      ∃ p, get_participant_by_user st.store uid = some p ∧
        p.status = PStatus.waitlist := by
    intro uid huid
    obtain ⟨q, hq, hquid⟩ := List.mem_map.mp huid
    have h1 : q ∈ get_waitlist st.store none := List.take_subset _ _ hq
    refine ⟨q, ?_, status_of_mem_get_waitlist st.store q h1⟩
    rw [← hquid]
    exact get_participant_by_user_of_mem st.store q
      (mem_of_mem_get_waitlist st.store q h1) hndu
  have hloop := promoteLoop_spec now (((get_waitlist st.store none).take
      (min ((st.event.maxParticipants : Int) -
        ((get_participants st.store none).length : Int)).toNat
        (get_waitlist st.store none).length)).map (fun p => p.userId))
    st.store st.event hndp hndu huids_nodup hWstep
  refine ⟨?_, ?_, ?_⟩
  · rw [hprom, hloop.1]
  · have hsorted := sortBy_pairwise byPosition byPosition_total byPosition_trans
      (st.store.filter isWaitlisted)
    have hle : ((get_waitlist st.store none).map (fun q => q.position)).Pairwise
        (fun a b => a ≤ b) := by
      rw [List.pairwise_map]
      exact hsorted.imp (fun hab => by
        rw [byPosition, decide_eq_true_eq] at hab
        exact hab)
    have hnd2 : ((get_waitlist st.store none).map (fun q => q.position)).Nodup :=
      ((sortBy_perm byPosition (st.store.filter isWaitlisted)).map
        (fun q => q.position)).nodup_iff.mpr hposnd
    have hlt : ((get_waitlist st.store none).map (fun q => q.position)).Pairwise
        (fun a b => a < b) :=
      (hle.and hnd2).imp (fun hab => lt_of_le_of_ne hab.1 hab.2)
    exact hlt.sublist ((List.take_sublist _ _).map _)
  · intro uid huid
    rw [hstore]
    rw [hprom, hloop.1] at huid
    exact hloop.2.1 uid huid

/-- C3 witness: capacity grows from 1 to 3 with one joined user and waitlist
[user 2 at position 1, user 3 at position 2]: both waitlisted users are
promoted, in position order, each ending JOINED at position 0. -/
theorem capacity_increase_promotes_in_order_witness :
    (handle_capacity_change 10 1
      ⟨[⟨1, 1, PStatus.joined, 0, 0⟩, ⟨2, 2, PStatus.waitlist, 1, 2⟩,
        ⟨3, 3, PStatus.waitlist, 2, 3⟩], ⟨100, 3, 1, EventStatus.active, false⟩⟩).promoted =
      [2, 3] ∧
    (∃ p, get_participant_by_user (handle_capacity_change 10 1
      ⟨[⟨1, 1, PStatus.joined, 0, 0⟩, ⟨2, 2, PStatus.waitlist, 1, 2⟩,
        ⟨3, 3, PStatus.waitlist, 2, 3⟩], ⟨100, 3, 1, EventStatus.active, false⟩⟩).store 2 =
      some p ∧ p.status = PStatus.joined ∧ p.position = 0) := by
  have h := capacity_increase_promotes_in_order 10 1
    ⟨[⟨1, 1, PStatus.joined, 0, 0⟩, ⟨2, 2, PStatus.waitlist, 1, 2⟩,
      ⟨3, 3, PStatus.waitlist, 2, 3⟩], ⟨100, 3, 1, EventStatus.active, false⟩⟩
    (by decide) (by decide) (by decide) (by decide) (by decide) (by decide)
  refine ⟨?_, ?_⟩
  · rw [h.1]
    decide
  · exact h.2.2 2 (by rw [h.1]; decide)

/-- C4 witness: capacity drops from 2 to 1 with joined users 1 (earlier) and
2 (later): user 2 alone is demoted, appended at waitlist position 2; user 1's
record is untouched. -/
theorem capacity_decrease_demotes_latest_witness :
    (handle_capacity_change 10 2
      ⟨[⟨1, 1, PStatus.joined, 0, 0⟩, ⟨2, 2, PStatus.joined, 0, 5⟩,
        ⟨3, 3, PStatus.waitlist, 1, 6⟩], ⟨100, 1, 2, EventStatus.full, false⟩⟩).demoted =
      [2] ∧
    get_participant_by_user (handle_capacity_change 10 2
      ⟨[⟨1, 1, PStatus.joined, 0, 0⟩, ⟨2, 2, PStatus.joined, 0, 5⟩,
        ⟨3, 3, PStatus.waitlist, 1, 6⟩], ⟨100, 1, 2, EventStatus.full, false⟩⟩).store 2 =
      some ⟨2, 2, PStatus.waitlist, 2, 5⟩ ∧
    get_participant_by_user (handle_capacity_change 10 2
      ⟨[⟨1, 1, PStatus.joined, 0, 0⟩, ⟨2, 2, PStatus.joined, 0, 5⟩,
        ⟨3, 3, PStatus.waitlist, 1, 6⟩], ⟨100, 1, 2, EventStatus.full, false⟩⟩).store 1 =
      some ⟨1, 1, PStatus.joined, 0, 0⟩ := by
  have h := capacity_decrease_demotes_latest 10 2
    ⟨[⟨1, 1, PStatus.joined, 0, 0⟩, ⟨2, 2, PStatus.joined, 0, 5⟩,
      ⟨3, 3, PStatus.waitlist, 1, 6⟩], ⟨100, 1, 2, EventStatus.full, false⟩⟩
    (by decide) (by decide) (by decide) (by decide)
  refine ⟨?_, ?_, ?_⟩
  · rw [h.1]
    decide
  · exact h.2.1 0 (by decide)
  · exact h.2.2.1 ⟨1, 1, PStatus.joined, 0, 0⟩ (by decide) (by decide)

/-- C1: counterexample trace, reachable through the code's own operations.
An event with capacity 2 receives joins from users 1, 2, 3 (user 3
waitlisted at position 1); capacity is edited down to 1, demoting user 2 to
the back of the waitlist (position 2); then user 1 (JOINED) leaves.  The
claim says the promoted user is the front of the waitlist — user 3 at
position 1 — but `_promote_from_waitlist` reads the waitlist with a
query-level `limit=1` applied before the in-memory sort by position, so it
promotes user 2, the first waitlisted record in document order. -/
theorem leave_event_promotes_wrong_user :
    (leave_event 5 1
      ⟨(handle_capacity_change 4 2
          ⟨((join_event 3 3 3 ((join_event 2 2 2 ((join_event 1 1 1
              ⟨[], ⟨100, 2, 0, EventStatus.active, false⟩⟩).state)).state)).state).store,
            { ((join_event 3 3 3 ((join_event 2 2 2 ((join_event 1 1 1
                ⟨[], ⟨100, 2, 0, EventStatus.active, false⟩⟩).state)).state)).state).event with
              maxParticipants := 1 }⟩).store,
        (handle_capacity_change 4 2
          ⟨((join_event 3 3 3 ((join_event 2 2 2 ((join_event 1 1 1
              ⟨[], ⟨100, 2, 0, EventStatus.active, false⟩⟩).state)).state)).state).store,
            { ((join_event 3 3 3 ((join_event 2 2 2 ((join_event 1 1 1
                ⟨[], ⟨100, 2, 0, EventStatus.active, false⟩⟩).state)).state)).state).event with
              maxParticipants := 1 }⟩).event⟩).promotedUserId = some 2 ∧
    (get_waitlist
      (handle_capacity_change 4 2
        ⟨((join_event 3 3 3 ((join_event 2 2 2 ((join_event 1 1 1
            ⟨[], ⟨100, 2, 0, EventStatus.active, false⟩⟩).state)).state)).state).store,
          { ((join_event 3 3 3 ((join_event 2 2 2 ((join_event 1 1 1
              ⟨[], ⟨100, 2, 0, EventStatus.active, false⟩⟩).state)).state)).state).event with
            maxParticipants := 1 }⟩).store none).head?.map
        (fun p => (p.userId, p.position)) = some (3, 1) := by
  constructor <;> rfl

end WithGames
